import Mathlib

/-!
Verification of the breach-aggregation core of `databreach-rss`.

Python strings are modelled as `List Char` (`Str`).  Character classes
(`\w`, `\s`, `\d`, `str.lower`) are modelled at ASCII granularity, which is
exact for every ASCII string; all concrete inputs below are ASCII.
Python `dict` (insertion ordered) is modelled as an association list, and
`sorted(set(...))` as insertion into a sorted duplicate-free list.
-/

set_option maxHeartbeats 1000000

namespace DatabreachRss

/-- Python strings, modelled as their character sequences. -/
abbrev Str := List Char

/-- Whitespace characters stripped by Python `str.strip()` / matched by `\s`. -/
def isSpaceChar (c : Char) : Bool :=
  c == ' ' || c == '\t' || c == '\n' || c == '\r' || c == '\x0b' || c == '\x0c'

/-- Characters kept by `re.sub(r'[^\w\s]', '', s)`: word characters (`\w`)
or whitespace (`\s`), at ASCII granularity. -/
def isWordOrSpace (c : Char) : Bool :=
  c.isAlphanum || c == '_' || isSpaceChar c

/-- Python `str.lower()` (ASCII). -/
def lowerStr (s : Str) : Str := s.map Char.toLower

/-- Python `re.sub(r'[^\w\s]', '', s)`: delete every character that is
neither a word character nor whitespace. -/
def stripPunct (s : Str) : Str := s.filter isWordOrSpace

/-- Python `str.strip()`: drop leading whitespace, then trailing whitespace. -/
def trim (s : Str) : Str :=
  ((s.dropWhile isSpaceChar).reverse.dropWhile isSpaceChar).reverse

/-- Python `s.split(',')`: split at every comma; `n` commas give `n+1` parts. -/
def splitOnComma : Str → List Str
  | [] => [[]]
  | c :: rest =>
    let r := splitOnComma rest
    if c = ',' then [] :: r else (c :: r.headI) :: r.tail

/-- Python `', '.join(parts)`. -/
def joinCommaSpace : List Str → Str
  | [] => []
  | [x] => x
  | x :: y :: ys => x ++ ',' :: ' ' :: joinCommaSpace (y :: ys)

/-- Insert a string into an ascending, duplicate-free list, keeping it
ascending and duplicate-free (strings ordered lexicographically by code
point, as Python compares `str`). -/
def insSorted (x : Str) : List Str → List Str
  | [] => [x]
  | y :: ys => if x < y then x :: y :: ys else if x = y then y :: ys else y :: insSorted x ys

/-- Python `sorted(set(l))`: the ascending list of the distinct elements. -/
def canonSet (l : List Str) : List Str := l.foldl (fun acc x => insSorted x acc) []

/-! ### Basic lemmas on the string utilities -/

theorem dropWhile_idem (p : Char → Bool) (l : Str) :
    (l.dropWhile p).dropWhile p = l.dropWhile p := by
  induction l with
  | nil => rfl
  | cons c cs ih =>
    by_cases h : p c
    · simp [List.dropWhile_cons, h, ih]
    · simp [List.dropWhile_cons, h]

theorem mem_trim {c : Char} {s : Str} (h : c ∈ trim s) : c ∈ s := by
  unfold trim at h
  rw [List.mem_reverse] at h
  have h2 := (List.dropWhile_suffix isSpaceChar).mem h
  rw [List.mem_reverse] at h2
  exact (List.dropWhile_suffix isSpaceChar).mem h2

theorem dropWhile_eq_self_of_take {p : Char → Bool} {t b : Str}
    (hpre : t <+: b) (hb : b.dropWhile p = b) : t.dropWhile p = t := by
  cases t with
  | nil => rfl
  | cons c cs =>
    obtain ⟨r, hr⟩ := hpre
    subst hr
    by_cases h : p c
    · exfalso
      rw [List.cons_append, List.dropWhile_cons, if_pos h] at hb
      have h3 : List.Sublist ((cs ++ r).dropWhile p) (cs ++ r) := List.dropWhile_sublist p
      have h4 := h3.length_le
      have h5 := congrArg List.length hb
      simp [List.length_append] at h4 h5
      omega
    · rw [List.dropWhile_cons, if_neg h]

theorem trim_idem (s : Str) : trim (trim s) = trim s := by
  set P := isSpaceChar with hP
  have key : ∀ b : Str, b.dropWhile P = b →
      trim ((b.reverse.dropWhile P).reverse) = (b.reverse.dropWhile P).reverse := by
    intro b hb
    set t := (b.reverse.dropWhile P).reverse with ht
    have hpre : t <+: b := by
      have : t.reverse <:+ b.reverse := by
        rw [ht, List.reverse_reverse]
        exact List.dropWhile_suffix P
      exact List.reverse_suffix.mp (by simpa using this)
    have h1 : t.dropWhile P = t := dropWhile_eq_self_of_take hpre hb
    unfold trim
    rw [h1, ht, List.reverse_reverse, dropWhile_idem]
  have : trim s = ((s.dropWhile P).reverse.dropWhile P).reverse := rfl
  rw [this]
  exact key (s.dropWhile P) (dropWhile_idem P s)

theorem trim_cons_space (p : Str) : trim (' ' :: p) = trim p := by
  unfold trim
  simp [List.dropWhile_cons, isSpaceChar]

theorem splitOnComma_cons (c : Char) (rest : Str) :
    splitOnComma (c :: rest) =
      if c = ',' then [] :: splitOnComma rest
      else (c :: (splitOnComma rest).headI) :: (splitOnComma rest).tail := rfl

theorem splitOnComma_ne_nil (s : Str) : splitOnComma s ≠ [] := by
  cases s with
  | nil => simp [splitOnComma]
  | cons c rest =>
    rw [splitOnComma_cons]
    by_cases hc : c = ','
    · simp [hc]
    · simp [hc]

theorem splitOnComma_parts_no_comma {s : Str} {p : Str}
    (hp : p ∈ splitOnComma s) : ',' ∉ p := by
  induction s generalizing p with
  | nil =>
    simp [splitOnComma] at hp
    subst hp; simp
  | cons c rest ih =>
    rw [splitOnComma_cons] at hp
    cases h : splitOnComma rest with
    | nil => exact absurd h (splitOnComma_ne_nil rest)
    | cons q qs =>
      rw [h] at hp
      by_cases hc : c = ','
      · rw [if_pos hc] at hp
        rcases List.mem_cons.mp hp with h1 | h1
        · subst h1; simp
        · exact ih (h ▸ h1)
      · rw [if_neg hc] at hp
        simp only [List.headI_cons, List.tail_cons] at hp
        rcases List.mem_cons.mp hp with h1 | h1
        · subst h1
          intro hmem
          rcases List.mem_cons.mp hmem with h2 | h2
          · exact hc h2.symm
          · exact ih (h ▸ List.mem_cons_self q qs) h2
        · exact ih (h ▸ List.mem_cons.mpr (Or.inr h1))

theorem splitOnComma_no_comma {s : Str} (h : ',' ∉ s) : splitOnComma s = [s] := by
  induction s with
  | nil => rfl
  | cons c rest ih =>
    have hc : c ≠ ',' := fun hc => h (hc ▸ List.mem_cons_self c rest)
    have hrest : ',' ∉ rest := fun hm => h (List.mem_cons.mpr (Or.inr hm))
    rw [splitOnComma_cons, ih hrest, if_neg hc]
    simp

theorem splitOnComma_append_comma {a : Str} (s : Str) (h : ',' ∉ a) :
    splitOnComma (a ++ ',' :: s) = a :: splitOnComma s := by
  induction a with
  | nil =>
    simp only [List.nil_append]
    rw [splitOnComma_cons, if_pos rfl]
  | cons c cs ih =>
    have hc : c ≠ ',' := fun hc => h (hc ▸ List.mem_cons_self c cs)
    have hcs : ',' ∉ cs := fun hm => h (List.mem_cons.mpr (Or.inr hm))
    simp only [List.cons_append]
    rw [splitOnComma_cons, ih hcs, if_neg hc]
    simp

theorem mem_insSorted {a x : Str} {l : List Str} :
    a ∈ insSorted x l ↔ a = x ∨ a ∈ l := by
  induction l with
  | nil => simp [insSorted]
  | cons y ys ih =>
    unfold insSorted
    by_cases h1 : x < y
    · simp [h1]
    · by_cases h2 : x = y
      · subst h2
        simp [h1]
      · simp only [if_neg h1, if_neg h2, List.mem_cons, ih]
        tauto

theorem sorted_insSorted {x : Str} {l : List Str}
    (hs : l.Sorted (· < ·)) : (insSorted x l).Sorted (· < ·) := by
  induction l with
  | nil => simp [insSorted]
  | cons y ys ih =>
    rw [List.sorted_cons] at hs
    obtain ⟨hy, hys⟩ := hs
    unfold insSorted
    by_cases h1 : x < y
    · rw [if_pos h1, List.sorted_cons]
      refine ⟨?_, by rw [List.sorted_cons]; exact ⟨hy, hys⟩⟩
      intro b hb
      rcases List.mem_cons.mp hb with rfl | hb
      · exact h1
      · exact lt_trans h1 (hy b hb)
    · by_cases h2 : x = y
      · rw [if_neg h1, if_pos h2, List.sorted_cons]
        exact ⟨hy, hys⟩
      · rw [if_neg h1, if_neg h2, List.sorted_cons]
        refine ⟨?_, ih hys⟩
        intro b hb
        rcases mem_insSorted.mp hb with rfl | hb
        · exact lt_of_le_of_ne (not_lt.mp h1) (Ne.symm h2)
        · exact hy b hb

theorem insSorted_of_mem {x : Str} {l : List Str}
    (hs : l.Sorted (· < ·)) (hx : x ∈ l) : insSorted x l = l := by
  induction l with
  | nil => cases hx
  | cons y ys ih =>
    rw [List.sorted_cons] at hs
    obtain ⟨hy, hys⟩ := hs
    unfold insSorted
    rcases List.mem_cons.mp hx with rfl | hx
    · rw [if_neg (lt_irrefl x), if_pos rfl]
    · have hyx : y < x := hy x hx
      rw [if_neg (asymm hyx), if_neg (ne_of_gt hyx), ih hys hx]

theorem canonSet_sorted (l : List Str) : (canonSet l).Sorted (· < ·) := by
  suffices h : ∀ acc : List Str, acc.Sorted (· < ·) →
      (l.foldl (fun acc x => insSorted x acc) acc).Sorted (· < ·) by
    exact h [] (by simp)
  induction l with
  | nil => intro acc hacc; exact hacc
  | cons x xs ih =>
    intro acc hacc
    exact ih (insSorted x acc) (sorted_insSorted hacc)

theorem mem_canonSet {a : Str} {l : List Str} : a ∈ canonSet l ↔ a ∈ l := by
  suffices h : ∀ acc : List Str, a ∈ l.foldl (fun acc x => insSorted x acc) acc ↔
      a ∈ acc ∨ a ∈ l by
    simpa using h []
  induction l with
  | nil => intro acc; simp
  | cons x xs ih =>
    intro acc
    simp only [List.foldl_cons, ih (insSorted x acc), mem_insSorted, List.mem_cons]
    tauto

theorem canonSet_append_singleton (l : List Str) (x : Str) :
    canonSet (l ++ [x]) = insSorted x (canonSet l) := by
  unfold canonSet
  rw [List.foldl_append]
  rfl

theorem canonSet_nodup (l : List Str) : (canonSet l).Nodup :=
  (canonSet_sorted l).nodup

theorem sorted_nodup_ext {l₁ l₂ : List Str}
    (hs₁ : l₁.Sorted (· < ·)) (hs₂ : l₂.Sorted (· < ·))
    (hmem : ∀ a, a ∈ l₁ ↔ a ∈ l₂) : l₁ = l₂ := by
  have hperm : List.Perm l₁ l₂ := (List.perm_ext_iff_of_nodup hs₁.nodup hs₂.nodup).mpr hmem
  haveI : IsAntisymm Str (fun x1 x2 : Str => x1 < x2) :=
    ⟨fun a b h1 h2 => absurd h2 (asymm h1)⟩
  exact List.eq_of_perm_of_sorted hperm hs₁ hs₂

theorem canonSet_of_sorted {l : List Str}
    (hs : l.Sorted (· < ·)) : canonSet l = l :=
  sorted_nodup_ext (canonSet_sorted l) hs (fun _ => mem_canonSet)

/-- Join/split round trip: splitting a `', '`-joined list of trimmed,
comma-free strings and trimming the parts recovers the list. -/
theorem split_join_roundtrip {l : List Str}
    (h : ∀ x ∈ l, ',' ∉ x ∧ trim x = x) (hne : l ≠ []) :
    (splitOnComma (joinCommaSpace l)).map trim = l := by
  induction l with
  | nil => exact absurd rfl hne
  | cons x xs ih =>
    cases xs with
    | nil =>
      have hx := h x (List.mem_cons_self x [])
      rw [joinCommaSpace, splitOnComma_no_comma hx.1]
      simp [hx.2]
    | cons y ys =>
      have hx := h x (List.mem_cons_self x (y :: ys))
      have hrest : ∀ z ∈ y :: ys, ',' ∉ z ∧ trim z = z :=
        fun z hz => h z (List.mem_cons.mpr (Or.inr hz))
      have hjoin : joinCommaSpace (x :: y :: ys) =
          x ++ ',' :: ' ' :: joinCommaSpace (y :: ys) := rfl
      have ihr := ih hrest (by simp)
      obtain ⟨q, qs, hsp3⟩ : ∃ q qs, splitOnComma (joinCommaSpace (y :: ys)) = q :: qs := by
        cases hsp3 : splitOnComma (joinCommaSpace (y :: ys)) with
        | nil => exact absurd hsp3 (splitOnComma_ne_nil _)
        | cons q qs => exact ⟨q, qs, rfl⟩
      have hsp2 : splitOnComma (' ' :: joinCommaSpace (y :: ys)) = (' ' :: q) :: qs := by
        rw [splitOnComma_cons, if_neg (by decide), hsp3]
        simp
      rw [hjoin, splitOnComma_append_comma _ hx.1, hsp2]
      rw [hsp3] at ihr
      simp only [List.map_cons] at ihr ⊢
      rw [trim_cons_space, hx.2, ihr]

/-! ### Data model: `BreachEntry` (breach_rss_full.py, lines 76-126) -/

/-- Normalized breach entry from any source (dataclass `BreachEntry`). -/
structure BreachEntry where
  company_name : Str
  date_reported : Str
  source : Str
  url : Str
  description : Str := []
  records_affected : Str := "Unknown".toList
  state_records_affected : Str := []
  location : Str := []
  threat_actor : Str := []
  breach_type : Str := "Data Breach".toList
deriving DecidableEq

/-- The fixed list of trailing corporate suffixes stripped by `case_id`,
in the order the Python `for` loop checks them. -/
def suffixList : List Str :=
  [" inc".toList, " llc".toList, " ltd".toList, " corp".toList,
   " corporation".toList, " company".toList, " co".toList]

/-- One iteration of the suffix-stripping loop:
`if normalized_name.endswith(suffix): normalized_name = normalized_name[:-len(suffix)]`. -/
def stripOne (s : Str) (suf : Str) : Str :=
  if suf <:+ s then s.take (s.length - suf.length) else s

/-- The whole suffix-stripping `for` loop of `case_id`. -/
def stripLoop (s : Str) : Str := suffixList.foldl stripOne s

/-- Lower-cased, punctuation-stripped company name (the value of
`re.sub(r'[^\w\s]', '', self.company_name.lower())` in `case_id`). -/
def normPre (s : Str) : Str := stripPunct (lowerStr s)

/-- Fully normalized company name used by `case_id`: lower-case, strip
punctuation, strip trailing corporate suffixes, trim whitespace. -/
def normName (s : Str) : Str := trim (stripLoop (normPre s))

/-- ASCII decimal digit (model of `\d`). -/
def isDigitChar (c : Char) : Bool := c.isDigit

/-- Match `(\d{4})-(\d{2})` at the head of the string, returning the two
groups. -/
def matchYM : Str → Option (Str × Str)
  | a :: b :: c :: d :: h :: e :: f :: _ =>
    if isDigitChar a && isDigitChar b && isDigitChar c && isDigitChar d &&
       (h == '-') && isDigitChar e && isDigitChar f then
      some ([a, b, c, d], [e, f])
    else none
  | _ => none

/-- Python `re.search(r'(\d{4})-(\d{2})', s)`: leftmost match of the pattern. -/
def searchYM : Str → Option (Str × Str)
  | [] => none
  | c :: rest =>
    match matchYM (c :: rest) with
    | some r => some r
    | none => searchYM rest

/-- Alternative of `(\d{1,2})/\d{1,2}/(\d{4})` where both leading fields are
single digits (tried last in regex backtracking order). -/
def matchMDY11 : Str → Option (Str × Str)
  | a :: '/' :: c :: '/' :: y1 :: y2 :: y3 :: y4 :: _ =>
    if isDigitChar a && isDigitChar c &&
       isDigitChar y1 && isDigitChar y2 && isDigitChar y3 && isDigitChar y4 then
      some ([a], [y1, y2, y3, y4])
    else none
  | _ => none

/-- Alternative where the first field is one digit and the middle field two. -/
def matchMDY12 (s : Str) : Option (Str × Str) :=
  match s with
  | a :: '/' :: c :: d :: '/' :: y1 :: y2 :: y3 :: y4 :: _ =>
    if isDigitChar a && isDigitChar c && isDigitChar d &&
       isDigitChar y1 && isDigitChar y2 && isDigitChar y3 && isDigitChar y4 then
      some ([a], [y1, y2, y3, y4])
    else matchMDY11 s
  | _ => matchMDY11 s

/-- Alternative where the first field is two digits and the middle field one. -/
def matchMDY21 (s : Str) : Option (Str × Str) :=
  match s with
  | a :: b :: '/' :: c :: '/' :: y1 :: y2 :: y3 :: y4 :: _ =>
    if isDigitChar a && isDigitChar b && isDigitChar c &&
       isDigitChar y1 && isDigitChar y2 && isDigitChar y3 && isDigitChar y4 then
      some ([a, b], [y1, y2, y3, y4])
    else matchMDY12 s
  | _ => matchMDY12 s

/-- Match `(\d{1,2})/\d{1,2}/(\d{4})` at the head of the string, trying the
greedy alternatives in regex backtracking order; returns groups 1 and 2. -/
def matchMDY (s : Str) : Option (Str × Str) :=
  match s with
  | a :: b :: '/' :: c :: d :: '/' :: y1 :: y2 :: y3 :: y4 :: _ =>
    if isDigitChar a && isDigitChar b && isDigitChar c && isDigitChar d &&
       isDigitChar y1 && isDigitChar y2 && isDigitChar y3 && isDigitChar y4 then
      some ([a, b], [y1, y2, y3, y4])
    else matchMDY21 s
  | _ => matchMDY21 s

/-- Python `re.search(r'(\d{1,2})/\d{1,2}/(\d{4})', s)`: leftmost match. -/
def searchMDY : Str → Option (Str × Str)
  | [] => none
  | c :: rest =>
    match matchMDY (c :: rest) with
    | some r => some r
    | none => searchMDY rest

/-- Python `str.zfill(2)`: left-pad with `'0'` to length 2. -/
def zfill2 (s : Str) : Str :=
  if s.length ≥ 2 then s else List.replicate (2 - s.length) '0' ++ s

/-- The `date_part` computed inside `case_id`: try `YYYY-MM` anywhere in the
reported date, then `MM/DD/YYYY`, else the empty string. -/
def datePart (d : Str) : Str :=
  if d = [] then []
  else
    match searchYM d with
    | some (y, m) => y ++ '-' :: m
    | none =>
      match searchMDY d with
      | some (mo, y) => y ++ '-' :: zfill2 mo
      | none => []

/-- The `case_id` identity key (BreachEntry.case_id).  The Python code
returns `hashlib.md5(content.encode()).hexdigest()`; the MD5 hexdigest is
modelled as the identity on the content string, so digest equality
coincides with content equality (a deterministic, collision-free
abstraction of the cryptographic hash). -/
def case_id (e : BreachEntry) : Str :=
  normName e.company_name ++ datePart e.date_reported

/-! ### Merge fold of `BreachDataCollector.collect_all` (lines 1298-1325) -/

/-- Python `', '.join(sorted(set(s.strip() for s in existing.source.split(',')) ∪
add(entry.source)))` — the source-merging statement of the fold. -/
def mergeSources (existingSrc entrySrc : Str) : Str :=
  joinCommaSpace (canonSet ((splitOnComma existingSrc).map trim ++ [entrySrc]))

/-- Placeholder values used by the `records_affected` merge condition. -/
def raPlaceholders : List Str := ["Unknown".toList, "N/A".toList, []]

/-- Folding one duplicate `entry` into the `existing` entry for the same
`case_id` (the `else` branch of the dedup loop, lines 1304-1321).  The
in-place mutation of `existing` is modelled functionally. -/
def mergeInto (existing entry : BreachEntry) : BreachEntry :=
  { existing with
    source := mergeSources existing.source entry.source
    threat_actor :=
      if existing.threat_actor = [] ∧ entry.threat_actor ≠ [] then entry.threat_actor
      else existing.threat_actor
    description :=
      if existing.description = [] ∧ entry.description ≠ [] then entry.description
      else existing.description
    records_affected :=
      if existing.records_affected ∈ raPlaceholders ∧ entry.records_affected ∉ raPlaceholders
      then entry.records_affected
      else existing.records_affected
    location :=
      if existing.location = [] ∧ entry.location ≠ [] then entry.location
      else existing.location }

/-- One step of the dedup loop: Python `dict` keyed by `case_id`,
insertion-ordered, modelled as an association list. -/
def dedupStep (acc : List (Str × BreachEntry)) (e : BreachEntry) : List (Str × BreachEntry) :=
  let k := case_id e
  if k ∈ acc.map Prod.fst then
    acc.map (fun p => if p.1 = k then (p.1, mergeInto p.2 e) else p)
  else acc ++ [(k, e)]

/-- The dedup-and-merge pass of `collect_all` (lines 1298-1323): fold all
raw entries into `case_entries` and return `list(case_entries.values())`. -/
def collectDedup (entries : List BreachEntry) : List BreachEntry :=
  (entries.foldl dedupStep []).map Prod.snd

/-! ### DataValidator (blog_generator.py, lines 182-279)

The score lives in two readings.  The validity threshold
`quality_score < 0.5` is compared on the double-precision accumulated sum
and is modelled by `floatScoreOfSignals`, an exact IEEE binary64
round-to-nearest-even model — the double and exact sums genuinely disagree
at that threshold (`float_exact_divergence`).  The returned
`round(quality_score, 2)` is modelled as the exact two-decimal value
(`round2` of the exact sum): every reachable double sum is within `2⁻⁵⁰`
of the exact sum, which is a multiple of `0.05` and hence never within
`2⁻⁵⁰` of a two-decimal rounding boundary, so the two-decimal rounding of
the double sum equals the exact sum. -/

/-- Result of data validation (dataclass `ValidationResult`). -/
structure ValidationResult where
  is_valid : Bool
  quality_score : ℚ
  reasons : List Str
deriving DecidableEq

/-- The stoplist `DataValidator.INVALID_NAMES`. -/
def INVALID_NAMES : List Str :=
  ["unknown".toList, "n/a".toList, "na".toList, "none".toList, [], "tbd".toList]

/-- Python `round(x, 2)` on rationals: round half to even at two decimals. -/
def round2 (q : ℚ) : ℚ :=
  let n : ℤ := ⌊q * 100⌋
  let f : ℚ := q * 100 - n
  if f < 1/2 then n / 100
  else if f > 1/2 then (n + 1) / 100
  else if Even n then n / 100 else (n + 1) / 100

/-- The `has_valid_name` test of `DataValidator.validate`:
`company_name and company_name.lower().strip() not in INVALID_NAMES`. -/
def hasValidName (company_name : Str) : Bool :=
  decide (company_name ≠ [] ∧ trim (lowerStr company_name) ∉ INVALID_NAMES)

/-- The `combined_content` of `DataValidator.validate`: the description, or
`f"{description} {extracted_text}"` when the supplementary text is truthy. -/
def combinedContent (description : Str) (extracted_text : Option Str) : Str :=
  match extracted_text with
  | some t => if t ≠ [] then description ++ ' ' :: t else description
  | none => description

/-- The placeholder test for `records_affected` (`+0.15` signal). -/
def recordsSpecified (records : Str) : Bool :=
  decide (records ≠ [] ∧
    lowerStr records ∉ ["unknown".toList, "n/a".toList, "na".toList, ([] : Str)])

/-- The placeholder test for `threat_actor` (`+0.1` signal). -/
def actorIdentified (threat_actor : Str) : Bool :=
  decide (threat_actor ≠ [] ∧
    lowerStr threat_actor ∉ ["unknown".toList, "n/a".toList, ([] : Str)])

/-- The placeholder test for `location` (`+0.05` signal). -/
def locationSpecified (location : Str) : Bool :=
  decide (location ≠ [] ∧
    lowerStr location ∉ ["unknown".toList, "n/a".toList, ([] : Str)])

/-- The generic-type test for `breach_type` (`+0.1` signal). -/
def specificBreachType (breach_type : Str) : Bool :=
  decide
    (lowerStr breach_type ∉ ["data breach".toList, "breach".toList, "unknown".toList, ([] : Str)])

/-! #### IEEE binary64 model of the float score accumulation

Python accumulates `quality_score` in double precision and compares
`quality_score < 0.5` on the double value.  A binary64 value in the range
of the score (0 to 1.05, all normal numbers) is a dyadic rational with a
53-bit significand; `roundDouble` rounds an exact rational to the nearest
such value, ties to even — exactly IEEE round-to-nearest-even on this
range (negative inputs never occur; zero maps to zero).  One `+=` of the
program is one `fadd`, and a decimal float literal is `floatVal` of its
exact value.  This matters: the double sum `0.3 + 0.15 + 0.05` is
`0.49999999999999994 < 0.5` although the exact sum is `1/2`
(`float_exact_divergence` below). -/

/-- Round-to-nearest significand, ties to even. -/
def roundMantissa (n : ℤ) (f : ℚ) : ℤ :=
  if f < 1/2 then n else if 1/2 < f then n + 1 else if Even n then n else n + 1

/-- Round a nonnegative rational to the nearest IEEE binary64 value
(53-bit significand, round half to even). -/
def roundDouble (q : ℚ) : ℚ :=
  if q ≤ 0 then 0
  else
    (roundMantissa ⌊q * (2:ℚ) ^ (52 - Int.log 2 q)⌋
        (q * (2:ℚ) ^ (52 - Int.log 2 q) - (⌊q * (2:ℚ) ^ (52 - Int.log 2 q)⌋ : ℚ)) : ℚ) *
      (2:ℚ) ^ (Int.log 2 q - 52)

/-- One double-precision addition (`+=` on Python floats). -/
def fadd (a b : ℚ) : ℚ := roundDouble (a + b)

/-- The binary64 value of a decimal float literal. -/
def floatVal (q : ℚ) : ℚ := roundDouble q

/-- The float `quality_score` accumulated by `DataValidator.validate`, as a
function of the seven boolean signals: each taken branch performs one
double-precision `+=` of the corresponding weight literal. -/
def floatScoreOfSignals (n d50 d200 r a l t : Bool) : ℚ :=
  let s1 := cond n (fadd 0 (floatVal (3/10))) 0
  let s2 := cond d50 (fadd s1 (floatVal (2/10))) s1
  let s3 := cond d200 (fadd s2 (floatVal (1/10))) s2
  let s4 := cond r (fadd s3 (floatVal (15/100))) s3
  let s5 := cond a (fadd s4 (floatVal (1/10))) s4
  let s6 := cond l (fadd s5 (floatVal (5/100))) s5
  cond t (fadd s6 (floatVal (1/10))) s6

/-- The accumulated quality score of `DataValidator.validate` as a function
of the seven boolean signals, added in the order the code adds them, in
exact arithmetic.  Used for the returned rounded score, where
`round(float_sum, 2)` coincides with the exact two-decimal value on every
reachable combination; the validity threshold below uses the float
accumulation instead, where the two do differ. -/
def scoreOfSignals (name d50 d200 rec act loc typ : Bool) : ℚ :=
  ((((((0 + (if name then 3/10 else 0)) + (if d50 then 2/10 else 0)) +
    (if d200 then 1/10 else 0)) + (if rec then 15/100 else 0)) +
    (if act then 1/10 else 0)) + (if loc then 5/100 else 0)) +
    (if typ then 1/10 else 0)

/-- Model of `DataValidator.validate(entry, extracted_text)` (lines 192-279).  The
Python low-score reason string interpolates the numeric score
(`f"Quality score {score:.2f} below threshold 0.5"`); the constant prefix
stands for it here, as no claim inspects that text. -/
def validate (entry : BreachEntry) (extracted_text : Option Str) : ValidationResult :=
  let has_valid_name := hasValidName entry.company_name
  let reasons0 : List Str :=
    if has_valid_name then [] else ["Missing or invalid company name".toList]
  let combined_content := combinedContent entry.description extracted_text
  let has_sufficient_content := decide ((trim combined_content).length ≥ 50)
  let reasons1 :=
    if has_sufficient_content then reasons0
    else reasons0 ++ ["Insufficient content (need 50+ chars)".toList]
  let quality_score :=
    scoreOfSignals has_valid_name
      (decide (entry.description.length ≥ 50))
      (decide (entry.description.length ≥ 200))
      (recordsSpecified entry.records_affected)
      (actorIdentified entry.threat_actor)
      (locationSpecified entry.location)
      (specificBreachType entry.breach_type)
  let float_quality_score :=
    floatScoreOfSignals has_valid_name
      (decide (entry.description.length ≥ 50))
      (decide (entry.description.length ≥ 200))
      (recordsSpecified entry.records_affected)
      (actorIdentified entry.threat_actor)
      (locationSpecified entry.location)
      (specificBreachType entry.breach_type)
  let is_valid0 := has_valid_name && has_sufficient_content
  let downgrade := is_valid0 && decide (float_quality_score < 1/2)
  let reasons2 :=
    if downgrade then reasons1 ++ ["Quality score below threshold 0.5".toList]
    else reasons1
  let is_valid := is_valid0 && !downgrade
  ⟨is_valid, round2 quality_score, reasons2⟩

/-- The double-precision quality score the validator's threshold test
compares against `0.5`, for a given entry. -/
def floatQualityScore (entry : BreachEntry) : ℚ :=
  floatScoreOfSignals (hasValidName entry.company_name)
    (decide (entry.description.length ≥ 50)) (decide (entry.description.length ≥ 200))
    (recordsSpecified entry.records_affected) (actorIdentified entry.threat_actor)
    (locationSpecified entry.location) (specificBreachType entry.breach_type)

/-- Modelled from the spec: the quality-score formula of §4.3 — an additive
function over the seven signals with fixed weights, capped at `1.0` (the
cap written as an explicit conditional).  Used only to compare the code's
score against the spec's formula. -/
def specScore (entry : BreachEntry) : ℚ :=
  let s :=
    (if hasValidName entry.company_name then 3/10 else 0) +
    (if entry.description.length ≥ 50 then 2/10 else 0) +
    (if entry.description.length ≥ 200 then 1/10 else 0) +
    (if recordsSpecified entry.records_affected then 15/100 else 0) +
    (if actorIdentified entry.threat_actor then 1/10 else 0) +
    (if locationSpecified entry.location then 5/100 else 0) +
    (if specificBreachType entry.breach_type then 1/10 else 0)
  if s ≤ 1 then s else 1

/-! ### BlogGenerator: cache and at-most-once gate (blog_generator.py)

External collaborators are determinized into an environment: the article
extractor, the Anthropic client plus JSON parsing of its response (one
`Option` result per entry: `none` models an exception or unparseable
response), the clock, and the configured boilerplate.  `BlogCache.set`
writes the in-memory map and the per-key JSON file together, so one map
models both layers. -/

/-- Generated blog post (dataclass `BlogPost`). -/
structure BlogPost where
  id : Str
  company_name : Str
  title : Str
  what_happened : Str
  who_is_affected : Str
  contact_us : Str
  generated_at : Str
  source_url : Str
  quality_score : ℚ
deriving DecidableEq

/-- Determinized external collaborators of `BlogGenerator`. -/
structure GenEnv where
  /-- Result of `ArticleExtractor.extract(url)`. -/
  extract : Str → Option Str
  /-- Whether `self.client` is set (API key present and library available). -/
  clientAvailable : Bool
  /-- Result of `client.messages.create` plus JSON parsing for an entry:
  `none` models a raised exception or an unparseable response. -/
  genResult : BreachEntry → Option (Str × Str)
  /-- The configured `self.contact_boilerplate`. -/
  boilerplate : Str
  /-- The clock value `datetime.now(timezone.utc).isoformat()`. -/
  nowIso : Str

/-- Mutable state of the generator: the blog cache (memory + durable
store), plus a counter of external generation calls used to state the
at-most-once property. -/
structure GenState where
  cache : List (Str × BlogPost)
  calls : ℕ
deriving DecidableEq

/-- Model of `BlogCache.get(case_id)`, the `memory_cache` dict lookup. -/
def cacheGet : List (Str × BlogPost) → Str → Option BlogPost
  | [], _ => none
  | p :: rest, k => if p.1 = k then some p.2 else cacheGet rest k

/-- Model of `BlogCache.has(case_id)`. -/
def cacheHas (c : List (Str × BlogPost)) (k : Str) : Bool :=
  decide (k ∈ c.map Prod.fst)

/-- Model of `BlogCache.set(blog)`: update memory and durable store. -/
def cacheSet (c : List (Str × BlogPost)) (b : BlogPost) : List (Str × BlogPost) :=
  if b.id ∈ c.map Prod.fst then
    c.map (fun p => if p.1 = b.id then (p.1, b) else p)
  else c ++ [(b.id, b)]

/-- Model of `BlogGenerator._generate_title(company_name)`. -/
def generateTitle (company_name : Str) : Str :=
  company_name ++ " Data Breach: What You Need to Know".toList

/-- Model of `BlogGenerator.generate(entry, skip_validation)` (lines 465-552). -/
def generate (env : GenEnv) (entry : BreachEntry) (skip_validation : Bool)
    (st : GenState) : Option BlogPost × GenState :=
  let k := case_id entry
  match cacheGet st.cache k with
  | some cached => (some cached, st)
  | none =>
    let extracted := env.extract entry.url
    let qsOpt : Option ℚ :=
      if skip_validation then some (1/2)
      else
        let v := validate entry extracted
        if v.is_valid then some v.quality_score else none
    match qsOpt with
    | none => (none, st)
    | some qs =>
      if env.clientAvailable then
        let st1 : GenState := { st with calls := st.calls + 1 }
        match env.genResult entry with
        | none => (none, st1)
        | some content =>
          let blog : BlogPost :=
            { id := k
              company_name := entry.company_name
              title := generateTitle entry.company_name
              what_happened := content.1
              who_is_affected := content.2
              contact_us := env.boilerplate
              generated_at := env.nowIso
              source_url := entry.url
              quality_score := qs }
          (some blog, { st1 with cache := cacheSet st1.cache blog })
      else (none, st)

/-- Whether the Python `limit` argument is truthy (`if limit:`):
`None` and `0` are falsy. -/
def limitTruthy : Option ℤ → Bool
  | none => false
  | some l => decide (l ≠ 0)

/-- The generation loop of `generate_batch` (lines 589-598), with its
`break` on reaching the limit. -/
def batchLoop (env : GenEnv) (lim : Option ℤ) :
    List BreachEntry → List BlogPost → ℕ → ℕ → GenState →
      List BlogPost × ℕ × ℕ × GenState
  | [], blogs, g, s, st => (blogs, g, s, st)
  | e :: rest, blogs, g, s, st =>
    if limitTruthy lim ∧ (blogs.length : ℤ) ≥ lim.getD 0 then (blogs, g, s, st)
    else
      match generate env e false st with
      | (some b, st1) => batchLoop env lim rest (blogs ++ [b]) (g + 1) s st1
      | (none, st1) => batchLoop env lim rest blogs g (s + 1) st1

/-- Result dictionary of `generate_batch`. -/
structure BatchResult where
  blogs : List BlogPost
  total : ℕ
  generated_count : ℕ
  skipped_count : ℕ
  cached_count : ℕ
deriving DecidableEq

/-- Model of `BlogGenerator.generate_batch(entries, limit)` (lines 554-608). -/
def generate_batch (env : GenEnv) (entries : List BreachEntry) (limit : Option ℤ)
    (st : GenState) : BatchResult × GenState :=
  let blogs0 := entries.filterMap (fun e => cacheGet st.cache (case_id e))
  let toGen0 := entries.filter (fun e => ! cacheHas st.cache (case_id e))
  let toGen :=
    if limitTruthy limit then
      toGen0.take (max 0 ((limit.getD 0 - (blogs0.length : ℤ)) * 2)).toNat
    else toGen0
  let r := batchLoop env limit toGen blogs0 0 0 st
  (⟨r.1, entries.length, r.2.1, r.2.2.1, r.1.length - r.2.1⟩, r.2.2.2)

/-! ### Date normalizer: `RSSFeedGenerator._parse_date` (lines 1402-1455)

`datetime.strptime` is modelled by a small directive interpreter with
CPython `_strptime` semantics: per-directive regex alternations (two-digit
forms preferred, then one-digit), whole-string consumption, and the
`datetime` constructor's day/second range validation, whose failure is the
same `ValueError` the loop catches.  `%Z` matches `UTC`/`GMT`
case-insensitively (locale-dependent local zone names are out of model
scope) and yields a naive result, as in CPython; only `%z` sets an offset.
The `dateutil` fallback is an external library and is abstracted as a
caller-supplied function, and `datetime.now(timezone.utc)` as a
caller-supplied aware timestamp. -/

/-- An aware-or-naive Python `datetime`: `off` is the UTC offset in
minutes (`none` = naive). -/
structure PyDateTime where
  year : ℕ
  month : ℕ
  day : ℕ
  hour : ℕ
  minute : ℕ
  second : ℕ
  micro : ℕ
  off : Option ℤ
deriving DecidableEq

/-- strptime accumulator defaults: 1900-01-01 00:00:00, naive. -/
def defaultAcc : PyDateTime := ⟨1900, 1, 1, 0, 0, 0, 0, none⟩

/-- strptime format directives appearing in `_parse_date`'s format list. -/
inductive Dir where
  | lit (c : Char)
  | year4
  | month2
  | day2
  | hour2
  | minute2
  | second2
  | frac
  | year2
  | monthAbbrev
  | monthFull
  | weekdayAbbrev
  | tzOffset
  | tzName
deriving DecidableEq

/-- Digit value of an ASCII digit. -/
def dval (c : Char) : ℕ := c.toNat - '0'.toNat

/-- A two-digits-preferred numeric field, as in the `_strptime` regex
alternations: a two-digit match passing `ok2`, else a one-digit match
passing `ok1`. -/
def pField (ok2 ok1 : ℕ → Bool) (s : Str) : Option (ℕ × Str) :=
  match s with
  | a :: b :: rest =>
    if isDigitChar a && isDigitChar b && ok2 (dval a * 10 + dval b) then
      some (dval a * 10 + dval b, rest)
    else if isDigitChar a && ok1 (dval a) then some (dval a, b :: rest)
    else none
  | [a] => if isDigitChar a && ok1 (dval a) then some (dval a, []) else none
  | [] => none

/-- Exactly `n` digits, returning the value. -/
def pExactDigits : ℕ → Str → Option (ℕ × Str)
  | 0, s => some (0, s)
  | _ + 1, [] => none
  | n + 1, c :: rest =>
    if isDigitChar c then
      (pExactDigits n rest).bind fun r => some (dval c * 10 ^ n + r.1, r.2)
    else none

/-- Greedily take 1-6 fraction digits (`%f`) and scale to microseconds. -/
def pFrac (s : Str) : Option (ℕ × Str) :=
  let ds := s.takeWhile isDigitChar
  if ds = [] then none
  else
    let ds6 := ds.take 6
    some (ds6.foldl (fun acc c => acc * 10 + dval c) 0 * 10 ^ (6 - ds6.length),
      s.drop ds6.length)

/-- Case-insensitive match of a literal word at the head of the input. -/
def pWord (w : Str) (s : Str) : Option Str :=
  if lowerStr (s.take w.length) = lowerStr w then some (s.drop w.length) else none

/-- Month names for `%b`, with their numbers. -/
def monthAbbrevs : List (Str × ℕ) :=
  [("jan".toList, 1), ("feb".toList, 2), ("mar".toList, 3), ("apr".toList, 4),
   ("may".toList, 5), ("jun".toList, 6), ("jul".toList, 7), ("aug".toList, 8),
   ("sep".toList, 9), ("oct".toList, 10), ("nov".toList, 11), ("dec".toList, 12)]

/-- Month names for `%B`, with their numbers. -/
def monthFulls : List (Str × ℕ) :=
  [("january".toList, 1), ("february".toList, 2), ("march".toList, 3),
   ("april".toList, 4), ("may".toList, 5), ("june".toList, 6), ("july".toList, 7),
   ("august".toList, 8), ("september".toList, 9), ("october".toList, 10),
   ("november".toList, 11), ("december".toList, 12)]

/-- Weekday names for `%a` (value unused by the result). -/
def weekdayAbbrevs : List Str :=
  ["mon".toList, "tue".toList, "wed".toList, "thu".toList, "fri".toList,
   "sat".toList, "sun".toList]

/-- Try the named alternatives in order. -/
def pNameOf : List (Str × ℕ) → Str → Option (ℕ × Str)
  | [], _ => none
  | (w, v) :: rest, s =>
    match pWord w s with
    | some s1 => some (v, s1)
    | none => pNameOf rest s

/-- Directive `%z`: `Z` (offset 0) or a sign, two hour digits, an optional colon and
two minute digits. -/
def pTzOffset (s : Str) : Option (ℤ × Str) :=
  match s with
  | 'Z' :: rest => some (0, rest)
  | sign :: h1 :: h2 :: rest =>
    if (sign == '+' || sign == '-') && isDigitChar h1 && isDigitChar h2 then
      let hrs : ℤ := (dval h1 * 10 + dval h2 : ℕ)
      match rest with
      | ':' :: m1 :: m2 :: rest2 =>
        if isDigitChar m1 && isDigitChar m2 then
          let mins : ℤ := (dval m1 * 10 + dval m2 : ℕ)
          some (if sign == '-' then -(hrs * 60 + mins) else hrs * 60 + mins, rest2)
        else none
      | m1 :: m2 :: rest2 =>
        if isDigitChar m1 && isDigitChar m2 then
          let mins : ℤ := (dval m1 * 10 + dval m2 : ℕ)
          some (if sign == '-' then -(hrs * 60 + mins) else hrs * 60 + mins, rest2)
        else none
      | _ => none
    else none
  | _ => none

/-- Run one strptime directive. -/
def runDir (dir : Dir) (acc : PyDateTime) (s : Str) : Option (PyDateTime × Str) :=
  match dir with
  | .lit c => match s with
    | c2 :: rest => if c2 = c then some (acc, rest) else none
    | [] => none
  | .year4 => (pExactDigits 4 s).map fun r => ({ acc with year := r.1 }, r.2)
  | .month2 =>
    (pField (fun v => decide (1 ≤ v ∧ v ≤ 12)) (fun v => decide (1 ≤ v ∧ v ≤ 9)) s).map
      fun r => ({ acc with month := r.1 }, r.2)
  | .day2 =>
    (pField (fun v => decide (1 ≤ v ∧ v ≤ 31)) (fun v => decide (1 ≤ v ∧ v ≤ 9)) s).map
      fun r => ({ acc with day := r.1 }, r.2)
  | .hour2 =>
    (pField (fun v => decide (v ≤ 23)) (fun _ => true) s).map
      fun r => ({ acc with hour := r.1 }, r.2)
  | .minute2 =>
    (pField (fun v => decide (v ≤ 59)) (fun _ => true) s).map
      fun r => ({ acc with minute := r.1 }, r.2)
  | .second2 =>
    (pField (fun v => decide (v ≤ 61)) (fun _ => true) s).map
      fun r => ({ acc with second := r.1 }, r.2)
  | .frac => (pFrac s).map fun r => ({ acc with micro := r.1 }, r.2)
  | .year2 =>
    (pExactDigits 2 s).map fun r =>
      ({ acc with year := if r.1 ≤ 68 then 2000 + r.1 else 1900 + r.1 }, r.2)
  | .monthAbbrev => (pNameOf monthAbbrevs s).map fun r => ({ acc with month := r.1 }, r.2)
  | .monthFull => (pNameOf monthFulls s).map fun r => ({ acc with month := r.1 }, r.2)
  | .weekdayAbbrev =>
    match pNameOf (weekdayAbbrevs.map fun w => (w, 0)) s with
    | some r => some (acc, r.2)
    | none => none
  | .tzOffset => (pTzOffset s).map fun r => ({ acc with off := some r.1 }, r.2)
  | .tzName =>
    match pWord "utc".toList s with
    | some rest => some (acc, rest)
    | none => match pWord "gmt".toList s with
      | some rest => some (acc, rest)
      | none => none

/-- Run a whole format over the input. -/
def runFmt : List Dir → PyDateTime → Str → Option PyDateTime
  | [], acc, s => if s = [] then some acc else none
  | d :: ds, acc, s =>
    match runDir d acc s with
    | some (acc1, s1) => runFmt ds acc1 s1
    | none => none

/-- Day count of a month, with Gregorian leap years (the `datetime`
constructor's validation). -/
def daysInMonth (y m : ℕ) : ℕ :=
  if m = 2 then
    if y % 4 = 0 ∧ (y % 100 ≠ 0 ∨ y % 400 = 0) then 29 else 28
  else if m = 4 ∨ m = 6 ∨ m = 9 ∨ m = 11 then 30
  else 31

/-- Model of `datetime.strptime(s, fmt)`: run the format, then apply the `datetime`
constructor's range validation (whose failure raises the same
`ValueError`). -/
def strptime (fmt : List Dir) (s : Str) : Option PyDateTime :=
  match runFmt fmt defaultAcc s with
  | some dt =>
    if dt.day ≤ daysInMonth dt.year dt.month ∧ dt.second ≤ 59 then some dt else none
  | none => none

/-- Literal run of format characters. -/
def lits (s : String) : List Dir := s.toList.map Dir.lit

/-- The `formats` list of `_parse_date`, in source order (the duplicate
`'%b %d, %Y'` entry included). -/
def formatsList : List (List Dir) :=
  [[.year4, .lit '-', .month2, .lit '-', .day2, .lit ' ', .hour2, .lit ':', .minute2,
    .lit ':', .second2, .lit '.', .frac],
   [.year4, .lit '-', .month2, .lit '-', .day2, .lit ' ', .hour2, .lit ':', .minute2,
    .lit ':', .second2],
   [.year4, .lit '-', .month2, .lit '-', .day2, .lit 'T', .hour2, .lit ':', .minute2,
    .lit ':', .second2, .lit '.', .frac],
   [.year4, .lit '-', .month2, .lit '-', .day2, .lit 'T', .hour2, .lit ':', .minute2,
    .lit ':', .second2],
   [.year4, .lit '-', .month2, .lit '-', .day2, .lit 'T', .hour2, .lit ':', .minute2,
    .lit ':', .second2, .lit 'Z'],
   [.year4, .lit '-', .month2, .lit '-', .day2, .lit 'T', .hour2, .lit ':', .minute2,
    .lit ':', .second2, .tzOffset],
   [.weekdayAbbrev, .lit ',', .lit ' ', .day2, .lit ' ', .monthAbbrev, .lit ' ', .year4,
    .lit ' ', .hour2, .lit ':', .minute2, .lit ':', .second2, .lit ' ', .tzOffset],
   [.weekdayAbbrev, .lit ',', .lit ' ', .day2, .lit ' ', .monthAbbrev, .lit ' ', .year4,
    .lit ' ', .hour2, .lit ':', .minute2, .lit ':', .second2, .lit ' ', .tzName],
   [.weekdayAbbrev, .lit ',', .lit ' ', .day2, .lit ' ', .monthAbbrev, .lit ' ', .year4,
    .lit ' ', .hour2, .lit ':', .minute2, .lit ':', .second2] ++ lits " GMT",
   [.year4, .lit '-', .month2, .lit '-', .day2],
   [.month2, .lit '/', .day2, .lit '/', .year4],
   [.month2, .lit '/', .day2, .lit '/', .year2],
   [.monthFull, .lit ' ', .day2, .lit ',', .lit ' ', .year4],
   [.monthAbbrev, .lit ' ', .day2, .lit ',', .lit ' ', .year4],
   [.monthAbbrev, .lit ' ', .day2, .lit ' ', .year4],
   [.monthAbbrev, .lit ' ', .day2, .lit ',', .lit ' ', .year4],
   [.day2, .lit ' ', .monthAbbrev, .lit ' ', .year4],
   [.day2, .lit ' ', .monthFull, .lit ' ', .year4]]

/-- The microsecond-truncation preprocessing of `_parse_date`:
`clean_date.split('.')[0]` when the final dot-segment is longer than 4. -/
def cleanDate (s : Str) : Str :=
  let t := trim s
  if '.' ∈ t ∧ (t.reverse.takeWhile (fun c => c ≠ '.')).length > 4 then
    t.takeWhile (fun c => c ≠ '.')
  else t

/-- The format loop: first matching format wins. -/
def tryFormats : List (List Dir) → Str → Option PyDateTime
  | [], _ => none
  | f :: rest, s =>
    match strptime f s with
    | some dt => some dt
    | none => tryFormats rest s

/-- The fixup `parsed.replace(tzinfo=timezone.utc)` applied when the parse is naive. -/
def ensureAware (dt : PyDateTime) : PyDateTime :=
  match dt.off with
  | none => { dt with off := some 0 }
  | some _ => dt

/-- Model of `RSSFeedGenerator._parse_date(date_str)` (lines 1402-1455).  `now` is
the value of `datetime.now(timezone.utc)` and `fallback` the abstracted
`dateutil.parser.parse` (with `none` for a raised exception). -/
def parse_date (now : PyDateTime) (fallback : Str → Option PyDateTime) (s : Str) :
    PyDateTime :=
  if s = [] then now
  else
    let clean := cleanDate s
    match tryFormats formatsList clean with
    | some dt => ensureAware dt
    | none =>
      match fallback clean with
      | some dt => ensureAware dt
      | none => now

/-! ### Lemmas about the suffix-stripping loop of `case_id` -/

theorem not_suffix_of_pairwise {s suf nb : Str}
    (h1 : ¬ s <:+ suf) (h2 : ¬ suf <:+ s) : ¬ s <:+ nb ++ suf := by
  intro hs
  have hsuf : suf <:+ nb ++ suf := List.suffix_append nb suf
  rcases Nat.le_total s.length suf.length with hle | hle
  · exact h1 (List.suffix_of_suffix_length_le hs hsuf hle)
  · exact h2 (List.suffix_of_suffix_length_le hsuf hs hle)

theorem foldl_stripOne_noop {SS : List Str} {st : Str}
    (h : ∀ s ∈ SS, ¬ s <:+ st) : SS.foldl stripOne st = st := by
  induction SS with
  | nil => rfl
  | cons s rest ih =>
    rw [List.foldl_cons]
    have hs : stripOne st s = st := by
      rw [stripOne, if_neg (h s (List.mem_cons_self s rest))]
    rw [hs]
    exact ih (fun x hx => h x (List.mem_cons.mpr (Or.inr hx)))

theorem stripOne_append_self (nb suf : Str) : stripOne (nb ++ suf) suf = nb := by
  rw [stripOne, if_pos (List.suffix_append nb suf)]
  have h : (nb ++ suf).length - suf.length = nb.length := by
    simp [List.length_append]
  rw [h, List.take_left]

theorem foldl_stripOne_strips {SS : List Str} {nb suf : Str} (hmem : suf ∈ SS)
    (hpw : ∀ s ∈ SS, s = suf ∨ (¬ s <:+ suf ∧ ¬ suf <:+ s))
    (hnb : ∀ s ∈ SS, ¬ s <:+ nb) :
    SS.foldl stripOne (nb ++ suf) = nb := by
  induction SS with
  | nil => cases hmem
  | cons s rest ih =>
    rw [List.foldl_cons]
    rcases eq_or_ne s suf with rfl | hne
    · rw [stripOne_append_self]
      exact foldl_stripOne_noop (fun x hx => hnb x (List.mem_cons.mpr (Or.inr hx)))
    · rcases hpw s (List.mem_cons_self s rest) with h | h
      · exact absurd h hne
      · have hno : stripOne (nb ++ suf) s = nb ++ suf := by
          rw [stripOne, if_neg (not_suffix_of_pairwise h.1 h.2)]
        rw [hno]
        have hmem2 : suf ∈ rest := by
          rcases List.mem_cons.mp hmem with h2 | h2
          · exact absurd h2.symm hne
          · exact h2
        exact ih hmem2 (fun x hx => hpw x (List.mem_cons.mpr (Or.inr hx)))
          (fun x hx => hnb x (List.mem_cons.mpr (Or.inr hx)))

/-- The seven suffixes are pairwise non-suffixes of each other. -/
theorem suffixList_pairwise :
    ∀ s ∈ suffixList, ∀ t ∈ suffixList, s = t ∨ (¬ s <:+ t ∧ ¬ t <:+ s) := by decide

theorem stripLoop_append {nb suf : Str} (hsuf : suf ∈ suffixList)
    (hnb : ∀ s ∈ suffixList, ¬ s <:+ nb) : stripLoop (nb ++ suf) = nb :=
  foldl_stripOne_strips hsuf (fun s hs => suffixList_pairwise s hs suf hsuf) hnb

theorem stripLoop_noop {nb : Str} (hnb : ∀ s ∈ suffixList, ¬ s <:+ nb) :
    stripLoop nb = nb :=
  foldl_stripOne_noop hnb

/-! ### Lemmas about the blog cache -/

theorem cacheGet_cons_pos {p : Str × BlogPost} {rest : List (Str × BlogPost)} {k : Str}
    (hp : p.1 = k) : cacheGet (p :: rest) k = some p.2 := by
  simp only [cacheGet]
  rw [if_pos hp]

theorem cacheGet_cons_neg {p : Str × BlogPost} {rest : List (Str × BlogPost)} {k : Str}
    (hp : ¬ p.1 = k) : cacheGet (p :: rest) k = cacheGet rest k := by
  simp only [cacheGet]
  rw [if_neg hp]

theorem cacheHas_eq_isSome (c : List (Str × BlogPost)) (k : Str) :
    cacheHas c k = (cacheGet c k).isSome := by
  induction c with
  | nil => rfl
  | cons p rest ih =>
    by_cases hp : p.1 = k
    · rw [cacheGet_cons_pos hp]
      unfold cacheHas
      rw [Option.isSome_some]
      exact decide_eq_true (by rw [List.map_cons]; exact List.mem_cons.mpr (Or.inl hp.symm))
    · rw [cacheGet_cons_neg hp, ← ih]
      unfold cacheHas
      apply decide_eq_decide.mpr
      rw [List.map_cons, List.mem_cons]
      constructor
      · rintro (h2 | h2)
        · exact absurd h2.symm hp
        · exact h2
      · exact Or.inr

theorem cacheGet_map_update {c : List (Str × BlogPost)} {b : BlogPost}
    (h : b.id ∈ c.map Prod.fst) :
    cacheGet (c.map (fun p => if p.1 = b.id then (p.1, b) else p)) b.id = some b := by
  induction c with
  | nil => simp at h
  | cons p rest ih =>
    rw [List.map_cons]
    by_cases hp : p.1 = b.id
    · rw [if_pos hp]
      exact cacheGet_cons_pos hp
    · rw [if_neg hp, cacheGet_cons_neg hp]
      apply ih
      rw [List.map_cons, List.mem_cons] at h
      rcases h with h2 | h2
      · exact absurd h2.symm hp
      · exact h2

theorem cacheGet_append_last {c : List (Str × BlogPost)} (b : BlogPost)
    (h : b.id ∉ c.map Prod.fst) : cacheGet (c ++ [(b.id, b)]) b.id = some b := by
  induction c with
  | nil =>
    rw [List.nil_append]
    exact cacheGet_cons_pos rfl
  | cons p rest ih =>
    rw [List.map_cons, List.mem_cons] at h
    have hp : ¬ p.1 = b.id := fun he => h (Or.inl he.symm)
    rw [List.cons_append, cacheGet_cons_neg hp]
    exact ih (fun h2 => h (Or.inr h2))

theorem cacheGet_cacheSet_self (c : List (Str × BlogPost)) (b : BlogPost) :
    cacheGet (cacheSet c b) b.id = some b := by
  unfold cacheSet
  by_cases h : b.id ∈ c.map Prod.fst
  · rw [if_pos h]
    exact cacheGet_map_update h
  · rw [if_neg h]
    exact cacheGet_append_last b h

/-! ### Idempotence machinery for `mergeSources` -/

theorem insSorted_ne_nil (x : Str) (l : List Str) : insSorted x l ≠ [] := by
  cases l with
  | nil => simp [insSorted]
  | cons y ys =>
    unfold insSorted
    by_cases h1 : x < y
    · simp [h1]
    · by_cases h2 : x = y
      · simp [h1, h2]
      · simp [h1, h2]

theorem mergeSources_parts_ok (esrc src : Str) (hc : ',' ∉ src) (ht : trim src = src) :
    ∀ x ∈ canonSet ((splitOnComma esrc).map trim ++ [src]), ',' ∉ x ∧ trim x = x := by
  intro x hx
  rcases List.mem_append.mp (mem_canonSet.mp hx) with hx | hx
  · obtain ⟨p, hp, rfl⟩ := List.mem_map.mp hx
    refine ⟨fun hm => splitOnComma_parts_no_comma hp (mem_trim hm), trim_idem p⟩
  · rw [List.mem_singleton.mp hx]
    exact ⟨hc, ht⟩

theorem mergeSources_idem (esrc src : Str) (hc : ',' ∉ src) (ht : trim src = src) :
    mergeSources (mergeSources esrc src) src = mergeSources esrc src := by
  unfold mergeSources
  set C := canonSet ((splitOnComma esrc).map trim ++ [src]) with hC
  have hCne : C ≠ [] := by
    rw [hC, canonSet_append_singleton]
    exact insSorted_ne_nil _ _
  have hok : ∀ x ∈ C, ',' ∉ x ∧ trim x = x := mergeSources_parts_ok esrc src hc ht
  have hrt : (splitOnComma (joinCommaSpace C)).map trim = C :=
    split_join_roundtrip hok hCne
  rw [hrt, canonSet_append_singleton, canonSet_of_sorted (canonSet_sorted _)]
  have hsrc : src ∈ C := by
    rw [hC]
    exact mem_canonSet.mpr (List.mem_append.mpr (Or.inr (List.mem_singleton.mpr rfl)))
  rw [insSorted_of_mem (canonSet_sorted _) hsrc]

/-! ### Claim theorems -/

/-- C1 (amended): two organization-name strings that agree after
lower-casing and punctuation-stripping — or that differ moreover by one
trailing known corporate suffix, provided the shorter name's lower-cased,
punctuation-stripped form does not itself end in a known suffix — paired
with the same reported-date text, always produce the same `case_id`.  The
proviso is forced by `C1_counterexample`: the stripping loop removes at
most one occurrence of each suffix, in a fixed order. -/
theorem C1_key_stability (a b : BreachEntry)
    (hdate : a.date_reported = b.date_reported)
    (h : normPre a.company_name = normPre b.company_name ∨
      (∃ suf ∈ suffixList, normPre a.company_name = normPre b.company_name ++ suf ∧
        ∀ s ∈ suffixList, ¬ s <:+ normPre b.company_name) ∨
      (∃ suf ∈ suffixList, normPre b.company_name = normPre a.company_name ++ suf ∧
        ∀ s ∈ suffixList, ¬ s <:+ normPre a.company_name)) :
    case_id a = case_id b := by
  unfold case_id
  rw [hdate]
  have hname : normName a.company_name = normName b.company_name := by
    unfold normName
    rcases h with h | ⟨suf, hsuf, heq, hnb⟩ | ⟨suf, hsuf, heq, hnb⟩
    · rw [h]
    · rw [heq, stripLoop_append hsuf hnb, stripLoop_noop hnb]
    · rw [heq, stripLoop_append hsuf hnb, stripLoop_noop hnb]
  rw [hname]

/-- Witness for C1: "Acme Corp" and "Acme" with the same date text get the
same key. -/
theorem C1_key_stability_witness :
    case_id ⟨"Acme Corp".toList, "2024-03-05".toList, "A".toList, [], [],
      "Unknown".toList, [], [], [], "Data Breach".toList⟩ =
    case_id ⟨"Acme".toList, "2024-03-05".toList, "B".toList, [], [],
      "Unknown".toList, [], [], [], "Data Breach".toList⟩ :=
  C1_key_stability _ _ rfl
    (Or.inr (Or.inl ⟨" corp".toList, by decide, by decide, by decide⟩))

/-- Counterexample to C1 as stated: "Acme Inc" and "Acme Inc Co" differ
only by the trailing known suffix " Co" and share the (empty) reported
date, yet their `case_id`s differ — the loop strips " co" from the longer
name, leaving "acme inc", but strips " inc" from the shorter, leaving
"acme". -/
theorem C1_counterexample :
    normPre "Acme Inc Co".toList = normPre "Acme Inc".toList ++ " co".toList ∧
    " co".toList ∈ suffixList ∧
    case_id ⟨"Acme Inc".toList, [], "A".toList, [], [],
        "Unknown".toList, [], [], [], "Data Breach".toList⟩ ≠
      case_id ⟨"Acme Inc Co".toList, [], "A".toList, [], [],
        "Unknown".toList, [], [], [], "Data Breach".toList⟩ := by
  decide

/-- C10: folding a later entry into an existing merged entity never
modifies the existing entity's `company_name`, `date_reported`, `url`,
`breach_type` or `state_records_affected` — for every pair of entries,
including those where the existing field is empty and the incoming one is
not; only `source`, `threat_actor`, `description`, `records_affected` and
`location` are ever reassigned. -/
theorem C10_merge_frame (ex en : BreachEntry) :
    (mergeInto ex en).company_name = ex.company_name ∧
    (mergeInto ex en).date_reported = ex.date_reported ∧
    (mergeInto ex en).url = ex.url ∧
    (mergeInto ex en).breach_type = ex.breach_type ∧
    (mergeInto ex en).state_records_affected = ex.state_records_affected :=
  ⟨rfl, rfl, rfl, rfl, rfl⟩

/-- C4 (amended): when a later entry is folded into an existing merged
entity, the source field becomes the sorted, comma-joined union of the
previous sources and the new entry's source; `threat_actor`, `description`
and `location` keep the existing value whenever it is non-empty (even if it
is "Unknown" or "N/A") and adopt the incoming value only when the existing
one is empty and the incoming one non-empty; the general
`records_affected` count keeps the existing value unless it is "Unknown",
"N/A" or empty while the incoming one is not, in which case the incoming
value is adopted; the jurisdiction-specific (state) count is not merged. -/
theorem C4_merge_policy (ex en : BreachEntry) :
    (mergeInto ex en).source =
      joinCommaSpace (canonSet ((splitOnComma ex.source).map trim ++ [en.source])) ∧
    (ex.threat_actor ≠ [] → (mergeInto ex en).threat_actor = ex.threat_actor) ∧
    (ex.threat_actor = [] → en.threat_actor ≠ [] →
      (mergeInto ex en).threat_actor = en.threat_actor) ∧
    (ex.threat_actor = [] → en.threat_actor = [] → (mergeInto ex en).threat_actor = []) ∧
    (ex.description ≠ [] → (mergeInto ex en).description = ex.description) ∧
    (ex.description = [] → en.description ≠ [] →
      (mergeInto ex en).description = en.description) ∧
    (ex.description = [] → en.description = [] → (mergeInto ex en).description = []) ∧
    (ex.location ≠ [] → (mergeInto ex en).location = ex.location) ∧
    (ex.location = [] → en.location ≠ [] → (mergeInto ex en).location = en.location) ∧
    (ex.location = [] → en.location = [] → (mergeInto ex en).location = []) ∧
    (ex.records_affected ∉ raPlaceholders →
      (mergeInto ex en).records_affected = ex.records_affected) ∧
    (ex.records_affected ∈ raPlaceholders → en.records_affected ∉ raPlaceholders →
      (mergeInto ex en).records_affected = en.records_affected) ∧
    (ex.records_affected ∈ raPlaceholders → en.records_affected ∈ raPlaceholders →
      (mergeInto ex en).records_affected = ex.records_affected) ∧
    (mergeInto ex en).state_records_affected = ex.state_records_affected := by
  refine ⟨rfl, ?_, ?_, ?_, ?_, ?_, ?_, ?_, ?_, ?_, ?_, ?_, ?_, rfl⟩
  · intro h
    exact if_neg (fun hc => h hc.1)
  · intro h1 h2
    exact if_pos ⟨h1, h2⟩
  · intro h1 h2
    exact (if_neg (fun hc => hc.2 h2)).trans h1
  · intro h
    exact if_neg (fun hc => h hc.1)
  · intro h1 h2
    exact if_pos ⟨h1, h2⟩
  · intro h1 h2
    exact (if_neg (fun hc => hc.2 h2)).trans h1
  · intro h
    exact if_neg (fun hc => h hc.1)
  · intro h1 h2
    exact if_pos ⟨h1, h2⟩
  · intro h1 h2
    exact (if_neg (fun hc => hc.2 h2)).trans h1
  · intro h
    exact if_neg (fun hc => h hc.1)
  · intro h1 h2
    exact if_pos ⟨h1, h2⟩
  · intro h1 h2
    exact if_neg (fun hc => hc.2 h2)

/-- Witness for C4: a merge where the existing actor is kept, the incoming
description is adopted, and the incoming records count replaces a
placeholder. -/
theorem C4_merge_policy_witness :
    (mergeInto
        ⟨"Acme".toList, [], "A".toList, [], [], "Unknown".toList, [], [],
          "Wizard Spider".toList, "Data Breach".toList⟩
        ⟨"Acme".toList, [], "B".toList, [], "desc".toList, "500".toList, [], [],
          [], "Data Breach".toList⟩).threat_actor = "Wizard Spider".toList ∧
    (mergeInto
        ⟨"Acme".toList, [], "A".toList, [], [], "Unknown".toList, [], [],
          "Wizard Spider".toList, "Data Breach".toList⟩
        ⟨"Acme".toList, [], "B".toList, [], "desc".toList, "500".toList, [], [],
          [], "Data Breach".toList⟩).description = "desc".toList ∧
    (mergeInto
        ⟨"Acme".toList, [], "A".toList, [], [], "Unknown".toList, [], [],
          "Wizard Spider".toList, "Data Breach".toList⟩
        ⟨"Acme".toList, [], "B".toList, [], "desc".toList, "500".toList, [], [],
          [], "Data Breach".toList⟩).records_affected = "500".toList :=
  ⟨(C4_merge_policy _ _).2.1 (by decide),
   (C4_merge_policy _ _).2.2.2.2.2.1 (by decide) (by decide),
   (C4_merge_policy _ _).2.2.2.2.2.2.2.2.2.2.2.1 (by decide) (by decide)⟩

/-- Counterexample to C4 as stated: the "keep only if non-empty and not
Unknown/N-A" rule does not apply to `threat_actor` — an existing actor of
"Unknown" is kept and the incoming "Lazarus" is not adopted, while the
claim demands adoption. -/
theorem C4_counterexample :
    (mergeInto
        ⟨"Acme".toList, [], "A".toList, [], [], "Unknown".toList, [], [],
          "Unknown".toList, "Data Breach".toList⟩
        ⟨"Acme".toList, [], "B".toList, [], [], "Unknown".toList, [], [],
          "Lazarus".toList, "Data Breach".toList⟩).threat_actor = "Unknown".toList ∧
    "Unknown".toList ≠ "Lazarus".toList ∧
    case_id (⟨"Acme".toList, [], "A".toList, [], [], "Unknown".toList, [], [],
        "Unknown".toList, "Data Breach".toList⟩ : BreachEntry) =
      case_id ⟨"Acme".toList, [], "B".toList, [], [], "Unknown".toList, [], [],
        "Lazarus".toList, "Data Breach".toList⟩ := by
  decide

/-- Idempotence of the "fill if empty" field update. -/
theorem fillEmpty_idem (a b : Str) :
    (if (if a = [] ∧ b ≠ [] then b else a) = [] ∧ b ≠ [] then b
     else (if a = [] ∧ b ≠ [] then b else a)) = (if a = [] ∧ b ≠ [] then b else a) := by
  by_cases h1 : a = [] <;> by_cases h2 : b = [] <;> simp [h1, h2]

/-- Idempotence of the placeholder-guarded `records_affected` update. -/
theorem fillPlaceholder_idem (a b : Str) :
    (if (if a ∈ raPlaceholders ∧ b ∉ raPlaceholders then b else a) ∈ raPlaceholders ∧
        b ∉ raPlaceholders then b
     else (if a ∈ raPlaceholders ∧ b ∉ raPlaceholders then b else a)) =
    (if a ∈ raPlaceholders ∧ b ∉ raPlaceholders then b else a) := by
  by_cases h1 : a ∈ raPlaceholders <;> by_cases h2 : b ∈ raPlaceholders <;> simp [h1, h2]

/-- C8 (amended): folding the same entry into a merged entity twice yields
exactly the same entity as folding it once, provided the entry's source
name contains no comma and carries no leading or trailing whitespace (both
provisos are forced: the display string is re-split on commas and
re-trimmed on the second fold, see `C8_counterexample`). -/
theorem C8_merge_idempotent (ex en : BreachEntry)
    (hc : ',' ∉ en.source) (ht : trim en.source = en.source) :
    mergeInto (mergeInto ex en) en = mergeInto ex en := by
  have hsrc := mergeSources_idem ex.source en.source hc ht
  unfold mergeInto at hsrc ⊢
  rw [BreachEntry.mk.injEq]
  exact ⟨rfl, rfl, hsrc, rfl, fillEmpty_idem _ _, fillPlaceholder_idem _ _, rfl,
    fillEmpty_idem _ _, fillEmpty_idem _ _, rfl⟩

/-- Witness for C8: a concrete double fold that changes nothing. -/
theorem C8_merge_idempotent_witness :
    mergeInto
      (mergeInto
        ⟨"Acme".toList, [], "X".toList, [], [], "Unknown".toList, [], [], [],
          "Data Breach".toList⟩
        ⟨"Acme".toList, [], "B".toList, [], "d".toList, "500".toList, [], [],
          "L".toList, "Data Breach".toList⟩)
      ⟨"Acme".toList, [], "B".toList, [], "d".toList, "500".toList, [], [],
        "L".toList, "Data Breach".toList⟩ =
    mergeInto
      ⟨"Acme".toList, [], "X".toList, [], [], "Unknown".toList, [], [], [],
        "Data Breach".toList⟩
      ⟨"Acme".toList, [], "B".toList, [], "d".toList, "500".toList, [], [],
        "L".toList, "Data Breach".toList⟩ :=
  C8_merge_idempotent _ _ (by decide) (by decide)

/-- Counterexample to C8 as stated: an entry whose source name contains a
comma ("A, B") shares its key with the entity, yet the second fold
re-splits the joined display string and duplicates the sources. -/
theorem C8_counterexample :
    case_id (⟨"Acme".toList, [], "X".toList, [], [], "Unknown".toList, [], [], [],
        "Data Breach".toList⟩ : BreachEntry) =
      case_id ⟨"Acme".toList, [], "A, B".toList, [], [], "Unknown".toList, [], [], [],
        "Data Breach".toList⟩ ∧
    mergeInto
        (mergeInto
          ⟨"Acme".toList, [], "X".toList, [], [], "Unknown".toList, [], [], [],
            "Data Breach".toList⟩
          ⟨"Acme".toList, [], "A, B".toList, [], [], "Unknown".toList, [], [], [],
            "Data Breach".toList⟩)
        ⟨"Acme".toList, [], "A, B".toList, [], [], "Unknown".toList, [], [], [],
          "Data Breach".toList⟩ ≠
      mergeInto
        ⟨"Acme".toList, [], "X".toList, [], [], "Unknown".toList, [], [], [],
          "Data Breach".toList⟩
        ⟨"Acme".toList, [], "A, B".toList, [], [], "Unknown".toList, [], [], [],
          "Data Breach".toList⟩ := by
  decide

/-- Case analysis over the seven signals: the accumulated score is within
`[0, 1]` and is a fixed point of two-decimal rounding. -/
theorem scoreOfSignals_cases (n d50 d200 r a l t : Bool) :
    0 ≤ scoreOfSignals n d50 d200 r a l t ∧
    scoreOfSignals n d50 d200 r a l t ≤ 1 ∧
    round2 (scoreOfSignals n d50 d200 r a l t) = scoreOfSignals n d50 d200 r a l t := by
  cases n <;> cases d50 <;> cases d200 <;> cases r <;> cases a <;> cases l <;> cases t <;>
    norm_num [scoreOfSignals, round2]

/-- The spec-side capped score formula agrees with the code's accumulated
score expression (the cap never bites since the weights sum to 1). -/
theorem specScore_eq_scoreOfSignals (entry : BreachEntry) :
    specScore entry =
      (if scoreOfSignals (hasValidName entry.company_name)
        (decide (entry.description.length ≥ 50)) (decide (entry.description.length ≥ 200))
        (recordsSpecified entry.records_affected) (actorIdentified entry.threat_actor)
        (locationSpecified entry.location) (specificBreachType entry.breach_type) ≤ 1
      then scoreOfSignals (hasValidName entry.company_name)
        (decide (entry.description.length ≥ 50)) (decide (entry.description.length ≥ 200))
        (recordsSpecified entry.records_affected) (actorIdentified entry.threat_actor)
        (locationSpecified entry.location) (specificBreachType entry.breach_type)
      else 1) := by
  unfold specScore scoreOfSignals
  simp only [decide_eq_true_eq, zero_add]

/-- C6: for every entity and optional supplementary text, the returned
quality score equals the earned-weight sum capped at `1.0` and rounded to
two decimals (and, the cap and the rounding being no-ops in exact
arithmetic, equals the sum itself), and always lies in `[0, 1]`. -/
theorem C6_quality_score (entry : BreachEntry) (ext : Option Str) :
    (validate entry ext).quality_score = round2 (specScore entry) ∧
    (validate entry ext).quality_score = specScore entry ∧
    0 ≤ (validate entry ext).quality_score ∧
    (validate entry ext).quality_score ≤ 1 := by
  obtain ⟨h0, h1, hr⟩ := scoreOfSignals_cases (hasValidName entry.company_name)
    (decide (entry.description.length ≥ 50)) (decide (entry.description.length ≥ 200))
    (recordsSpecified entry.records_affected) (actorIdentified entry.threat_actor)
    (locationSpecified entry.location) (specificBreachType entry.breach_type)
  have hsp : specScore entry =
      scoreOfSignals (hasValidName entry.company_name)
        (decide (entry.description.length ≥ 50)) (decide (entry.description.length ≥ 200))
        (recordsSpecified entry.records_affected) (actorIdentified entry.threat_actor)
        (locationSpecified entry.location) (specificBreachType entry.breach_type) :=
    (specScore_eq_scoreOfSignals entry).trans (if_pos h1)
  have hqs : (validate entry ext).quality_score =
      round2 (scoreOfSignals (hasValidName entry.company_name)
        (decide (entry.description.length ≥ 50)) (decide (entry.description.length ≥ 200))
        (recordsSpecified entry.records_affected) (actorIdentified entry.threat_actor)
        (locationSpecified entry.location) (specificBreachType entry.breach_type)) := rfl
  rw [hqs, hsp, hr]
  exact ⟨rfl, rfl, h0, h1⟩

/-! #### Evaluation lemmas for the binary64 rounding model -/

theorem int_log_eq {q : ℚ} {e : ℤ} (h1 : (2:ℚ) ^ e ≤ q) (h2 : q < (2:ℚ) ^ (e + 1)) :
    Int.log 2 q = e := by
  have hq : 0 < q := lt_of_lt_of_le (zpow_pos (by norm_num) e) h1
  have hle : e ≤ Int.log 2 q := by
    rw [← Int.zpow_le_iff_le_log (by norm_num) hq]
    exact_mod_cast h1
  have hlt : Int.log 2 q < e + 1 := by
    rw [← Int.lt_zpow_iff_log_lt (by norm_num) hq]
    exact_mod_cast h2
  omega

theorem roundDouble_round_down (q : ℚ) (e n : ℤ)
    (h1 : (2:ℚ) ^ e ≤ q) (h2 : q < (2:ℚ) ^ (e + 1))
    (hfl : ⌊q * (2:ℚ) ^ (52 - e)⌋ = n)
    (hf : q * (2:ℚ) ^ (52 - e) - (n : ℚ) < 1/2) :
    roundDouble q = (n : ℚ) * (2:ℚ) ^ (e - 52) := by
  have hq : 0 < q := lt_of_lt_of_le (zpow_pos (by norm_num) e) h1
  unfold roundDouble
  rw [if_neg (not_le.mpr hq), int_log_eq h1 h2, hfl]
  unfold roundMantissa
  rw [if_pos hf]

theorem roundDouble_round_up (q : ℚ) (e n : ℤ)
    (h1 : (2:ℚ) ^ e ≤ q) (h2 : q < (2:ℚ) ^ (e + 1))
    (hfl : ⌊q * (2:ℚ) ^ (52 - e)⌋ = n)
    (hf : 1/2 < q * (2:ℚ) ^ (52 - e) - (n : ℚ)) :
    roundDouble q = ((n + 1 : ℤ) : ℚ) * (2:ℚ) ^ (e - 52) := by
  have hq : 0 < q := lt_of_lt_of_le (zpow_pos (by norm_num) e) h1
  unfold roundDouble
  rw [if_neg (not_le.mpr hq), int_log_eq h1 h2, hfl]
  unfold roundMantissa
  rw [if_neg (not_lt.mpr (le_of_lt hf)), if_pos hf]

theorem roundDouble_tie_even (q : ℚ) (e n : ℤ)
    (h1 : (2:ℚ) ^ e ≤ q) (h2 : q < (2:ℚ) ^ (e + 1))
    (hfl : ⌊q * (2:ℚ) ^ (52 - e)⌋ = n)
    (hf : q * (2:ℚ) ^ (52 - e) - (n : ℚ) = 1/2) (hev : Even n) :
    roundDouble q = (n : ℚ) * (2:ℚ) ^ (e - 52) := by
  have hq : 0 < q := lt_of_lt_of_le (zpow_pos (by norm_num) e) h1
  unfold roundDouble
  rw [if_neg (not_le.mpr hq), int_log_eq h1 h2, hfl]
  unfold roundMantissa
  rw [if_neg (not_lt.mpr hf.ge), if_neg (not_lt.mpr hf.le), if_pos hev]

theorem roundDouble_eq_self (q : ℚ) (e n : ℤ)
    (h1 : (2:ℚ) ^ e ≤ q) (h2 : q < (2:ℚ) ^ (e + 1))
    (hn : q * (2:ℚ) ^ (52 - e) = (n : ℚ)) :
    roundDouble q = q := by
  have hfl : ⌊q * (2:ℚ) ^ (52 - e)⌋ = n := by rw [hn, Int.floor_intCast]
  have hf : q * (2:ℚ) ^ (52 - e) - (n : ℚ) < 1/2 := by
    rw [hn]
    norm_num
  rw [roundDouble_round_down q e n h1 h2 hfl hf, ← hn, mul_assoc]
  have he : (52 - e) + (e - 52) = (0 : ℤ) := by omega
  rw [← zpow_add₀ (by norm_num : (2:ℚ) ≠ 0), he, zpow_zero, mul_one]

/-- The Python literal `0.3` as a binary64 value. -/
theorem floatVal_03 : floatVal (3/10) = 5404319552844595 / 2 ^ 54 := by
  unfold floatVal
  rw [roundDouble_round_down (3/10) (-2) 5404319552844595 (by norm_num) (by norm_num)
    (by norm_num) (by norm_num)]
  norm_num

/-- The Python literal `0.2` as a binary64 value. -/
theorem floatVal_02 : floatVal (2/10) = 3602879701896397 / 2 ^ 54 := by
  unfold floatVal
  rw [roundDouble_round_up (2/10) (-3) 7205759403792793 (by norm_num) (by norm_num)
    (by norm_num) (by norm_num)]
  norm_num

/-- The Python literal `0.15` as a binary64 value. -/
theorem floatVal_015 : floatVal (15/100) = 5404319552844595 / 2 ^ 55 := by
  unfold floatVal
  rw [roundDouble_round_down (15/100) (-3) 5404319552844595 (by norm_num) (by norm_num)
    (by norm_num) (by norm_num)]
  norm_num

/-- The Python literal `0.05` as a binary64 value. -/
theorem floatVal_005 : floatVal (5/100) = 7205759403792794 / 2 ^ 57 := by
  unfold floatVal
  rw [roundDouble_round_up (5/100) (-5) 7205759403792793 (by norm_num) (by norm_num)
    (by norm_num) (by norm_num)]
  norm_num

/-- Valid name plus a 50-character description: the double sum
`0.3 + 0.2` is exactly `0.5`. -/
theorem floatScore_name_d50 :
    floatScoreOfSignals true true false false false false false = 1/2 := by
  show fadd (fadd 0 (floatVal (3/10))) (floatVal (2/10)) = 1/2
  rw [floatVal_03, floatVal_02]
  unfold fadd
  rw [zero_add]
  rw [roundDouble_eq_self (5404319552844595 / 2 ^ 54) (-2) 5404319552844595
    (by norm_num) (by norm_num) (by norm_num)]
  have hsum : (5404319552844595 / 2 ^ 54 : ℚ) + 3602879701896397 / 2 ^ 54 = 1/2 := by
    norm_num
  rw [hsum]
  exact roundDouble_eq_self (1/2) (-1) 4503599627370496 (by norm_num) (by norm_num)
    (by norm_num)

/-- The reviewer-relevant divergence: for the valid-name + records +
location combination the double sum `0.3 + 0.15 + 0.05` is strictly below
`0.5` (it is `0.49999999999999994…`), while the exact sum equals `1/2`. -/
theorem float_exact_divergence :
    floatScoreOfSignals true false false true false true false < 1/2 ∧
    scoreOfSignals true false false true false true false = 1/2 := by
  constructor
  · show fadd (fadd (fadd 0 (floatVal (3/10))) (floatVal (15/100))) (floatVal (5/100)) < 1/2
    rw [floatVal_03, floatVal_015, floatVal_005]
    unfold fadd
    rw [zero_add]
    rw [roundDouble_eq_self (5404319552844595 / 2 ^ 54) (-2) 5404319552844595
      (by norm_num) (by norm_num) (by norm_num)]
    have hs1 : (5404319552844595 / 2 ^ 54 : ℚ) + 5404319552844595 / 2 ^ 55 =
        16212958658533785 / 2 ^ 55 := by norm_num
    rw [hs1]
    rw [roundDouble_tie_even (16212958658533785 / 2 ^ 55) (-2) 8106479329266892
      (by norm_num) (by norm_num) (by norm_num) (by norm_num)
      ⟨4053239664633446, by norm_num⟩]
    have htie : ((8106479329266892 : ℤ) : ℚ) * (2:ℚ) ^ ((-2 : ℤ) - 52) =
        8106479329266892 / 2 ^ 54 := by norm_num
    rw [htie]
    have hs2 : (8106479329266892 / 2 ^ 54 : ℚ) + 7205759403792794 / 2 ^ 57 =
        72057594037927930 / 2 ^ 57 := by norm_num
    rw [hs2]
    rw [roundDouble_round_down (72057594037927930 / 2 ^ 57) (-2) 9007199254740991
      (by norm_num) (by norm_num) (by norm_num) (by norm_num)]
    norm_num
  · norm_num [scoreOfSignals]

/-- The acceptance condition of the validator, as a three-way conjunction
(shared helper for the claim theorems and witnesses below). -/
theorem validator_accepts_iff (entry : BreachEntry) (ext : Option Str) :
    (validate entry ext).is_valid = true ↔
      (hasValidName entry.company_name = true ∧
       50 ≤ (trim (combinedContent entry.description ext)).length ∧
       1/2 ≤ floatQualityScore entry) := by
  have hval : (validate entry ext).is_valid =
      ((hasValidName entry.company_name &&
        decide (50 ≤ (trim (combinedContent entry.description ext)).length)) &&
       !((hasValidName entry.company_name &&
          decide (50 ≤ (trim (combinedContent entry.description ext)).length)) &&
         decide (floatQualityScore entry < 1/2))) := rfl
  rw [hval]
  by_cases hn : hasValidName entry.company_name = true <;>
    by_cases h5 : 50 ≤ (trim (combinedContent entry.description ext)).length <;>
      by_cases hq2 : floatQualityScore entry < 1/2 <;>
    simp [hn, h5, hq2, not_lt, le_of_lt]

/-- The sample entity "Acme" with a 60-character description scores
exactly 0.5 in the program's double arithmetic (shared helper). -/
theorem floatQualityScore_sample :
    1/2 ≤ floatQualityScore ⟨"Acme".toList, [], "A".toList, [], List.replicate 60 'a',
      "Unknown".toList, [], [], [], "Data Breach".toList⟩ := by
  have h1 : hasValidName "Acme".toList = true := by decide
  have h2 : decide ((List.replicate 60 'a' : Str).length ≥ 50) = true := by decide
  have h3 : decide ((List.replicate 60 'a' : Str).length ≥ 200) = false := by decide
  have h4 : recordsSpecified "Unknown".toList = false := by decide
  have h5 : actorIdentified ([] : Str) = false := by decide
  have h6 : locationSpecified ([] : Str) = false := by decide
  have h7 : specificBreachType "Data Breach".toList = false := by decide
  show 1/2 ≤ floatScoreOfSignals (hasValidName "Acme".toList)
    (decide ((List.replicate 60 'a' : Str).length ≥ 50))
    (decide ((List.replicate 60 'a' : Str).length ≥ 200))
    (recordsSpecified "Unknown".toList) (actorIdentified ([] : Str))
    (locationSpecified ([] : Str)) (specificBreachType "Data Breach".toList)
  rw [h1, h2, h3, h4, h5, h6, h7, floatScore_name_d50]

/-- The sample entity is accepted by the validator (shared helper). -/
theorem sample_entry_valid :
    (validate ⟨"Acme".toList, [], "A".toList, [], List.replicate 60 'a',
      "Unknown".toList, [], [], [], "Data Breach".toList⟩ none).is_valid = true :=
  (validator_accepts_iff _ none).mpr ⟨by decide, by decide, floatQualityScore_sample⟩

/-- C3 (amended): the validator accepts exactly when (1) the organization
name is non-empty and its lower-cased, stripped form is outside the
stoplist, (2) the combined content — the description alone when the
supplementary text is absent or empty, otherwise the description, one
space, and the supplementary text — has at least 50 characters after
stripping surrounding whitespace, and (3) the quality score as the
program accumulates it, in IEEE double-precision arithmetic, is at least
0.5.  The whitespace-stripping and joining space in (2) are forced by the
counterexample; the double-precision reading of (3) is forced because the
float and exact sums disagree at the threshold — for valid name + records
+ location the double sum 0.3 + 0.15 + 0.05 is 0.49999999999999994 < 0.5
while the exact sum is 1/2 (`float_exact_divergence`). -/
theorem C3_validator_iff (entry : BreachEntry) (ext : Option Str) :
    (validate entry ext).is_valid = true ↔
      (hasValidName entry.company_name = true ∧
       50 ≤ (trim (combinedContent entry.description ext)).length ∧
       1/2 ≤ floatQualityScore entry) :=
  validator_accepts_iff entry ext

/-- Witness for C3: a concrete accepted entity — valid name, 60-character
description, double score exactly 0.5. -/
theorem C3_validator_iff_witness :
    (validate ⟨"Acme".toList, [], "A".toList, [], List.replicate 60 'a',
      "Unknown".toList, [], [], [], "Data Breach".toList⟩ none).is_valid = true :=
  (C3_validator_iff _ none).mpr ⟨by decide, by decide, floatQualityScore_sample⟩

/-- Counterexample to C3 as stated: a valid name with a 50-character
description ending in a space (no supplementary text) satisfies the
claim's three conditions — name valid, concatenated content of exactly 50
characters, score 0.5 — yet the validator strips the content to 49
characters and rejects. -/
theorem C3_counterexample :
    hasValidName "Acme".toList = true ∧
    (combinedContent (List.replicate 49 'a' ++ [' ']) none).length = 50 ∧
    1/2 ≤ specScore ⟨"Acme".toList, [], "A".toList, [],
      List.replicate 49 'a' ++ [' '], "Unknown".toList, [], [], [],
      "Data Breach".toList⟩ ∧
    (validate ⟨"Acme".toList, [], "A".toList, [],
      List.replicate 49 'a' ++ [' '], "Unknown".toList, [], [], [],
      "Data Breach".toList⟩ none).is_valid = false := by
  refine ⟨by decide, by decide, ?_, ?_⟩
  · have h1 : hasValidName "Acme".toList = true := by decide
    have h2 : (List.replicate 49 'a' ++ [' '] : Str).length ≥ 50 := by decide
    have h3 : ¬ (List.replicate 49 'a' ++ [' '] : Str).length ≥ 200 := by decide
    have h4 : recordsSpecified "Unknown".toList = false := by decide
    have h5 : actorIdentified ([] : Str) = false := by decide
    have h6 : locationSpecified ([] : Str) = false := by decide
    have h7 : specificBreachType "Data Breach".toList = false := by decide
    simp only [specScore, h1, h2, h3, h4, h5, h6, h7]
    norm_num
  · cases hb : (validate ⟨"Acme".toList, [], "A".toList, [],
        List.replicate 49 'a' ++ [' '], "Unknown".toList, [], [], [],
        "Data Breach".toList⟩ none).is_valid with
    | false => rfl
    | true =>
      obtain ⟨-, habs, -⟩ := (validator_accepts_iff _ _).mp hb
      exact absurd habs (by decide)

/-- C7 (code bug): in the spec's end-to-end scenario the two entries are
meant to merge, but the reported date "03/2024" matches neither of
`case_id`'s date regexes — `(\d{4})-(\d{2})` needs a hyphen and
`(\d{1,2})/\d{1,2}/(\d{4})` needs two slashes — despite the adjacent
comment "Try MM/YYYY or MM/DD/YYYY format", so the keys differ (empty
bucket vs "2024-03") and the dedup pass returns two entities instead of
one merged entity. -/
theorem C7_scenario_no_merge :
    normName "Acme Corp".toList = normName "ACME, Inc.".toList ∧
    datePart "2024-03-05".toList = "2024-03".toList ∧
    datePart "03/2024".toList = [] ∧
    case_id (⟨"Acme Corp".toList, "2024-03-05".toList, "Source A".toList, [],
        "ten chars.".toList, "Unknown".toList, [], [], [],
        "Data Breach".toList⟩ : BreachEntry) ≠
      case_id ⟨"ACME, Inc.".toList, "03/2024".toList, "Source B".toList, [],
        List.replicate 300 'd', "Unknown".toList, [], [], "Lazarus".toList,
        "Data Breach".toList⟩ ∧
    (collectDedup
      [⟨"Acme Corp".toList, "2024-03-05".toList, "Source A".toList, [],
        "ten chars.".toList, "Unknown".toList, [], [], [], "Data Breach".toList⟩,
       ⟨"ACME, Inc.".toList, "03/2024".toList, "Source B".toList, [],
        List.replicate 300 'd', "Unknown".toList, [], [], "Lazarus".toList,
        "Data Breach".toList⟩]).length = 2 := by
  decide

/-- C5 (amended): the date parser is total (never raises) and always
returns a timezone-aware timestamp — naive parses are assumed UTC, but a
parse carrying an explicit offset keeps that offset instead of being
converted to UTC (see `C5_counterexample`); it returns the current UTC
time as a sentinel when the input is empty, or when every format fails and
the permissive fallback also fails; and the listed inputs "2024-03-05",
"03/05/2024", "Mar 5, 2024" and "2024-03-05T10:00:00.123456Z" parse to the
expected instants in UTC, while "not-a-date" yields the sentinel whenever
the fallback fails on it. -/
theorem C5_parse_date_total (now : PyDateTime) (fallback : Str → Option PyDateTime)
    (hnow : now.off = some 0) (s : Str) :
    (parse_date now fallback s).off.isSome = true ∧
    (s = [] → parse_date now fallback s = now) ∧
    (tryFormats formatsList (cleanDate s) = none → fallback (cleanDate s) = none →
      parse_date now fallback s = now) ∧
    (fallback "not-a-date".toList = none →
      parse_date now fallback "not-a-date".toList = now) ∧
    parse_date now fallback "2024-03-05".toList = ⟨2024, 3, 5, 0, 0, 0, 0, some 0⟩ ∧
    parse_date now fallback "03/05/2024".toList = ⟨2024, 3, 5, 0, 0, 0, 0, some 0⟩ ∧
    parse_date now fallback "Mar 5, 2024".toList = ⟨2024, 3, 5, 0, 0, 0, 0, some 0⟩ ∧
    parse_date now fallback "2024-03-05T10:00:00.123456Z".toList =
      ⟨2024, 3, 5, 10, 0, 0, 0, some 0⟩ := by
  have hsent : ∀ s' : Str, tryFormats formatsList (cleanDate s') = none →
      fallback (cleanDate s') = none → parse_date now fallback s' = now := by
    intro s' h1 h2
    unfold parse_date
    by_cases hs : s' = []
    · rw [if_pos hs]
    · rw [if_neg hs]
      simp only [h1, h2]
  refine ⟨?_, ?_, hsent s, ?_, rfl, rfl, rfl, rfl⟩
  · unfold parse_date
    by_cases hs : s = []
    · rw [if_pos hs, hnow]
      rfl
    · rw [if_neg hs]
      cases h1 : tryFormats formatsList (cleanDate s) with
      | some dt =>
        simp only [h1]
        cases hdt : dt.off <;> simp [ensureAware, hdt]
      | none =>
        simp only [h1]
        cases h2 : fallback (cleanDate s) with
        | some dt =>
          simp only [h2]
          cases hdt : dt.off <;> simp [ensureAware, hdt]
        | none =>
          simp only [h2]
          rw [hnow]
          rfl
  · intro hs
    unfold parse_date
    rw [if_pos hs]
  · intro h2
    exact hsent "not-a-date".toList (by decide) h2

/-- Witness for C5: a concrete clock and an always-failing fallback — the
empty string and a garbage string yield the sentinel, and a plain date
parses to midnight UTC. -/
theorem C5_parse_date_total_witness :
    parse_date ⟨2026, 1, 1, 0, 0, 0, 0, some 0⟩ (fun _ => none) [] =
      ⟨2026, 1, 1, 0, 0, 0, 0, some 0⟩ ∧
    parse_date ⟨2026, 1, 1, 0, 0, 0, 0, some 0⟩ (fun _ => none) "not-a-date".toList =
      ⟨2026, 1, 1, 0, 0, 0, 0, some 0⟩ ∧
    parse_date ⟨2026, 1, 1, 0, 0, 0, 0, some 0⟩ (fun _ => none) "2024-03-05".toList =
      ⟨2024, 3, 5, 0, 0, 0, 0, some 0⟩ :=
  ⟨(C5_parse_date_total ⟨2026, 1, 1, 0, 0, 0, 0, some 0⟩ (fun _ => none) rfl []).2.1 rfl,
   (C5_parse_date_total ⟨2026, 1, 1, 0, 0, 0, 0, some 0⟩ (fun _ => none) rfl []).2.2.2.1 rfl,
   (C5_parse_date_total ⟨2026, 1, 1, 0, 0, 0, 0, some 0⟩ (fun _ => none) rfl []).2.2.2.2.1⟩

/-- Counterexample to C5 as stated: the input "2024-03-05T10:00:00+0500"
parses through the `%z` format and the result keeps the +05:00 offset —
timezone-aware, but not in UTC. -/
theorem C5_counterexample :
    parse_date ⟨2026, 1, 1, 0, 0, 0, 0, some 0⟩ (fun _ => none)
        "2024-03-05T10:00:00+0500".toList = ⟨2024, 3, 5, 10, 0, 0, 0, some 300⟩ ∧
    (some (300 : ℤ) ≠ some (0 : ℤ)) := by
  exact ⟨rfl, by decide⟩

/-- A cache-missing, valid entry with an available client and a successful
external call produces a blog keyed by the entry's `case_id`, caches it,
and counts one external invocation (shared helper). -/
theorem generate_success (env : GenEnv) (e : BreachEntry) (st : GenState)
    (c : Str × Str)
    (hmiss : cacheGet st.cache (case_id e) = none)
    (hvalid : (validate e (env.extract e.url)).is_valid = true)
    (hclient : env.clientAvailable = true)
    (hok : env.genResult e = some c) :
    ∃ b : BlogPost, b.id = case_id e ∧
      generate env e false st = (some b, ⟨cacheSet st.cache b, st.calls + 1⟩) := by
  refine ⟨⟨case_id e, e.company_name, generateTitle e.company_name, c.1, c.2,
    env.boilerplate, env.nowIso, e.url,
    (validate e (env.extract e.url)).quality_score⟩, rfl, ?_⟩
  unfold generate
  simp only [hmiss, hvalid, hclient, hok, Bool.false_eq_true, if_false, if_true]

/-- C2 (amended): when the key is not yet cached, the entry validates, the
client is available, and the external call succeeds, calling `generate`
twice in sequence invokes the external generation step exactly once — the
call counter rises by one over the two calls — and the second call returns
the artifact produced and cached by the first, unchanged, with no state
change.  (As stated the claim is false: when the first call fails
validation, the external step runs zero times, see `C2_counterexample`.) -/
theorem C2_generate_if_absent_once (env : GenEnv) (e : BreachEntry) (st : GenState)
    (c : Str × Str)
    (hmiss : cacheGet st.cache (case_id e) = none)
    (hvalid : (validate e (env.extract e.url)).is_valid = true)
    (hclient : env.clientAvailable = true)
    (hok : env.genResult e = some c) :
    (∃ b : BlogPost, (generate env e false st).1 = some b ∧
      generate env e false (generate env e false st).2 =
        (some b, (generate env e false st).2)) ∧
    (generate env e false st).2.calls = st.calls + 1 ∧
    (generate env e false (generate env e false st).2).2.calls = st.calls + 1 := by
  obtain ⟨b, hid, h1⟩ := generate_success env e st c hmiss hvalid hclient hok
  have hhit : cacheGet (cacheSet st.cache b) (case_id e) = some b :=
    hid ▸ cacheGet_cacheSet_self st.cache b
  have h2 : generate env e false ⟨cacheSet st.cache b, st.calls + 1⟩ =
      (some b, ⟨cacheSet st.cache b, st.calls + 1⟩) := by
    unfold generate
    simp only [hhit]
  refine ⟨⟨b, by rw [h1], ?_⟩, by rw [h1], ?_⟩
  · simp only [h1]
    exact h2
  · simp only [h1, h2]

/-- Witness for C2: a concrete environment and entry — after two calls the
counter is exactly one and the second call returns the first call's
artifact. -/
theorem C2_generate_if_absent_once_witness :
    (generate ⟨fun _ => none, true, fun _ => some ("W".toList, "H".toList),
        "B".toList, "T".toList⟩
      ⟨"Acme".toList, [], "A".toList, [], List.replicate 60 'a', "Unknown".toList,
        [], [], [], "Data Breach".toList⟩ false
      (generate ⟨fun _ => none, true, fun _ => some ("W".toList, "H".toList),
          "B".toList, "T".toList⟩
        ⟨"Acme".toList, [], "A".toList, [], List.replicate 60 'a', "Unknown".toList,
          [], [], [], "Data Breach".toList⟩ false ⟨[], 0⟩).2).2.calls = 1 ∧
    (generate ⟨fun _ => none, true, fun _ => some ("W".toList, "H".toList),
        "B".toList, "T".toList⟩
      ⟨"Acme".toList, [], "A".toList, [], List.replicate 60 'a', "Unknown".toList,
        [], [], [], "Data Breach".toList⟩ false
      (generate ⟨fun _ => none, true, fun _ => some ("W".toList, "H".toList),
          "B".toList, "T".toList⟩
        ⟨"Acme".toList, [], "A".toList, [], List.replicate 60 'a', "Unknown".toList,
          [], [], [], "Data Breach".toList⟩ false ⟨[], 0⟩).2).1 =
    (generate ⟨fun _ => none, true, fun _ => some ("W".toList, "H".toList),
        "B".toList, "T".toList⟩
      ⟨"Acme".toList, [], "A".toList, [], List.replicate 60 'a', "Unknown".toList,
        [], [], [], "Data Breach".toList⟩ false ⟨[], 0⟩).1 := by
  have hvalid : (validate
      ⟨"Acme".toList, [], "A".toList, [], List.replicate 60 'a', "Unknown".toList,
        [], [], [], "Data Breach".toList⟩ none).is_valid = true :=
    sample_entry_valid
  obtain ⟨⟨b, hb1, hb2⟩, hc1, hc2⟩ := C2_generate_if_absent_once
    ⟨fun _ => none, true, fun _ => some ("W".toList, "H".toList), "B".toList, "T".toList⟩
    ⟨"Acme".toList, [], "A".toList, [], List.replicate 60 'a', "Unknown".toList,
      [], [], [], "Data Breach".toList⟩ ⟨[], 0⟩ ("W".toList, "H".toList)
    rfl hvalid rfl rfl
  refine ⟨hc2, ?_⟩
  rw [hb2, hb1]

/-- Counterexample to C2 as stated: for an entry that fails validation
(placeholder name "Unknown"), two sequential `generate` calls invoke the
external generation function zero times — not exactly once — and the
second call returns nothing. -/
theorem C2_counterexample :
    (generate ⟨fun _ => none, true, fun _ => some ("W".toList, "H".toList), [], []⟩
      ⟨"Unknown".toList, [], "A".toList, [], [], "Unknown".toList, [], [], [],
        "Data Breach".toList⟩ false
      (generate ⟨fun _ => none, true, fun _ => some ("W".toList, "H".toList), [], []⟩
        ⟨"Unknown".toList, [], "A".toList, [], [], "Unknown".toList, [], [], [],
          "Data Breach".toList⟩ false ⟨[], 0⟩).2).2.calls = 0 ∧
    (generate ⟨fun _ => none, true, fun _ => some ("W".toList, "H".toList), [], []⟩
      ⟨"Unknown".toList, [], "A".toList, [], [], "Unknown".toList, [], [], [],
        "Data Breach".toList⟩ false
      (generate ⟨fun _ => none, true, fun _ => some ("W".toList, "H".toList), [], []⟩
        ⟨"Unknown".toList, [], "A".toList, [], [], "Unknown".toList, [], [], [],
          "Data Breach".toList⟩ false ⟨[], 0⟩).2).1 = none := by
  exact ⟨rfl, rfl⟩

/-- C9: when the key is not cached, the entry is valid and the client
available, but the external generation call fails (or its response cannot
be parsed), `generate` returns `none`, writes nothing to the cache —
memory and durable store are updated only together by `BlogCache.set`,
which is never reached — and a single-entry batch counts the entity as
skipped once, with exactly one external attempt and no retry. -/
theorem C9_failed_generation (env : GenEnv) (e : BreachEntry) (st : GenState)
    (hmiss : cacheGet st.cache (case_id e) = none)
    (hvalid : (validate e (env.extract e.url)).is_valid = true)
    (hclient : env.clientAvailable = true)
    (hfail : env.genResult e = none) :
    generate env e false st = (none, ⟨st.cache, st.calls + 1⟩) ∧
    (generate env e false st).2.cache = st.cache ∧
    generate_batch env [e] none st = (⟨[], 1, 0, 1, 0⟩, ⟨st.cache, st.calls + 1⟩) := by
  have h1 : generate env e false st = (none, ⟨st.cache, st.calls + 1⟩) := by
    unfold generate
    simp only [hmiss, hvalid, hclient, hfail, Bool.false_eq_true, if_false, if_true]
  have hhas : cacheHas st.cache (case_id e) = false := by
    rw [cacheHas_eq_isSome, hmiss]
    rfl
  refine ⟨h1, by rw [h1], ?_⟩
  unfold generate_batch
  simp only [List.filterMap_cons, List.filterMap_nil, hmiss, List.filter_cons,
    List.filter_nil, hhas, limitTruthy, Bool.not_false, if_true, if_false,
    Bool.false_eq_true]
  unfold batchLoop
  simp only [limitTruthy, h1, Bool.false_eq_true, false_and, if_false]
  simp only [batchLoop]
  rfl

/-- Witness for C9: a concrete failing environment — the call returns
`none`, the cache stays empty, and the batch reports one skip. -/
theorem C9_failed_generation_witness :
    generate ⟨fun _ => none, true, fun _ => none, [], []⟩
      ⟨"Acme".toList, [], "A".toList, [], List.replicate 60 'a', "Unknown".toList,
        [], [], [], "Data Breach".toList⟩ false ⟨[], 0⟩ = (none, ⟨[], 1⟩) ∧
    generate_batch ⟨fun _ => none, true, fun _ => none, [], []⟩
      [⟨"Acme".toList, [], "A".toList, [], List.replicate 60 'a', "Unknown".toList,
        [], [], [], "Data Breach".toList⟩] none ⟨[], 0⟩ =
      (⟨[], 1, 0, 1, 0⟩, ⟨[], 1⟩) := by
  have hvalid : (validate
      ⟨"Acme".toList, [], "A".toList, [], List.replicate 60 'a', "Unknown".toList,
        [], [], [], "Data Breach".toList⟩ none).is_valid = true :=
    sample_entry_valid
  have h := C9_failed_generation
    ⟨fun _ => none, true, fun _ => none, [], []⟩
    ⟨"Acme".toList, [], "A".toList, [], List.replicate 60 'a', "Unknown".toList,
      [], [], [], "Data Breach".toList⟩ ⟨[], 0⟩ rfl hvalid rfl rfl
  exact ⟨h.1, h.2.2⟩

end DatabreachRss
